import Mathlib

/-!
Verification of the page-synchronization pipeline of the blog-images
repository (`src/task.service.ts`, the current variant with the
rate limiter, S3 upload and chunked append).

The TypeScript service is shallowly embedded: every network effect
(rate-limiter acquisition, HTTP call to the content API, image download,
blob-store upload) and every log statement is recorded as an `Event` in a
trace.  The remote world is an explicit `Env`: the list of paged query
responses, the per-block delete results, the per-chunk append results,
the per-attempt image download / inspect / upload results.  `await`ed
promise compositions are sequentialized; the order of events in the model
trace reflects the order in which the source issues and awaits the calls
(`Promise.all` over a list runs every element and rejects with the first
rejection).  Thrown JS exceptions are modelled with `Except`, and every
`try/catch` of the source is an explicit `match`.
-/

/-- Errors thrown by the embedded code (JS exception payloads). -/
abbrev Err := String

/-- Raw image bytes (an axios `arraybuffer`). -/
abbrev Bytes := List Nat

/-- The payload of the `image` property of a Notion image block:
`caption`, the `type` discriminator (`"file"` or `"external"`), and the
two optional source URLs (`image.file?.url`, `image.external?.url`). -/
structure ImagePayload where
  caption : String
  type : Option String
  file : Option String
  external : Option String
  deriving Repr, DecidableEq

/-- A Notion block as the service sees it.  The eight volatile fields
deleted by `removeUnnecessaryBlockInfo` are `Option`s (`none` models an
absent/deleted key); `payload` stands for all remaining type-specific
properties (paragraph content, rich text, ...), carried opaquely. -/
structure Block where
  object : Option String
  id : Option String
  parent : Option String
  created_time : Option String
  last_edited_time : Option String
  last_edited_by : Option String
  has_children : Option Bool
  archived : Option Bool
  created_by : Option String
  type : String
  image : Option ImagePayload
  payload : Option String
  deriving Repr, DecidableEq

/-- A page returned by the database query.  `title` models
`page.properties.title.title` as its list of `plain_text`s. -/
structure Page where
  id : String
  title : List String
  deriving Repr, DecidableEq

/-- One response of a paged Notion endpoint: `{results, has_more, next_cursor}`. -/
structure PagedResp (α : Type) where
  results : List α
  has_more : Bool
  next_cursor : Option String
  deriving Repr, DecidableEq

/-- Result of `imageSize(buff)`: detected format plus pixel dimensions. -/
structure ImageInfo where
  type : String
  width : Nat
  height : Nat
  deriving Repr, DecidableEq

/-- Observable events of one run: rate-limiter acquisitions, transport
calls of the content API, image download/upload calls, log lines. -/
inductive Event where
  | acquire
  | callListPages (dbId : String) (pageSize : Nat) (cursor : Option String)
  | callListBlocks (pageId : String) (pageSize : Nat) (cursor : Option String)
  | callAppend (pageId : String) (chunk : List Block)
  | callDelete (blockId : Option String)
  | callMark (pageId : String)
  | callDownload (url : String)
  | callUpload (fileName : String)
  | logImgFail (attempt : Nat)
  | logError (msg : String)
  | logInfo (msg : String)
  deriving Repr, DecidableEq

/-- The external world: transport responses and collaborator behaviour.
Image download and upload results are indexed by the attempt number so
that transient failures can be expressed.  `extsToWebp` models the
configured `EXTENSIONS_TO_CONVERT_TO_WEBP` set and `md5hex` the MD5 hex
digest (`src/utils/constant.ts` and node `crypto` are outside `src/`). -/
structure Env where
  dbId : String
  imageDomain : String
  pagesResponses : List (Except Err (PagedResp Page))
  blocksResponses : String → List (Except Err (PagedResp Block))
  deleteResult : Option String → Except Err Unit
  appendResult : String → List Block → Except Err Unit
  markResult : String → Except Err Unit
  download : String → Nat → Except Err Bytes
  inspect : Bytes → Except Err ImageInfo
  upload : String → Bytes → String → Nat → Except Err Unit
  md5hex : Bytes → String
  mimeOf : String → String
  extsToWebp : List String

/-- Modelled from the spec: `RETRY_TIMES` is imported from
`src/utils/constant.ts`, which is not among the provided sources; the
spec fixes the retry budget at 3 attempts (§4.3). -/
def RETRY_TIMES : Nat := 3

/-- JS truthiness of a cursor value: `null`/absent and the empty string
are falsy; the source guards `start_cursor` with `if (startCursor)`. -/
def truthyCursor : Option String → Option String
  | none => none
  | some s => if s = "" then none else some s

/-- JS string interpolation of a possibly-`undefined` value
(template literals render `undefined` as the string "undefined"). -/
def jsShow : Option String → String
  | none => "undefined"
  | some s => s

/-- Embeds `block.image.file?.url ?? block.image.external?.url`. -/
def firstUrl (ip : ImagePayload) : Option String :=
  match ip.file with
  | some u => some u
  | none => ip.external

/-- The cursor-following loop of `getPagesByDatabaseId`: each iteration
awaits the rate limiter, issues the database query with `page_size: 100`
(plus `start_cursor` when truthy), then accumulates `data.results` and
follows `has_more`/`next_cursor`.  A transport error is rethrown
unchanged (`catchError` has no log there).  The recursion consumes the
environment's response list; running out of responses models a transport
that never answers. -/
def getPagesGo (env : Env) (id : String) :
    List (Except Err (PagedResp Page)) → Option String →
    List Event × Except Err (List Page)
  | [], cursor =>
    ([Event.acquire, Event.callListPages id 100 (truthyCursor cursor)],
      Except.error "no response from transport")
  | r :: rest, cursor =>
    let ev : List Event :=
      [Event.acquire, Event.callListPages id 100 (truthyCursor cursor)]
    match r with
    | Except.error e => (ev, Except.error e)
    | Except.ok resp =>
      if resp.has_more then
        let next := getPagesGo env id rest resp.next_cursor
        (ev ++ next.1, Except.map (fun l => resp.results ++ l) next.2)
      else
        (ev, Except.ok resp.results)

/-- Embeds `getPagesByDatabaseId(id)`. -/
def getPagesByDatabaseId (env : Env) (id : String) :
    List Event × Except Err (List Page) :=
  getPagesGo env id env.pagesResponses none

/-- The cursor-following loop of `getBlocksByPageId`: same shape as the
page query but with NO rate-limiter acquisition, and its `catchError`
logs "Failed at getBlocksByPageId" before rethrowing. -/
def getBlocksGo (env : Env) (id : String) :
    List (Except Err (PagedResp Block)) → Option String →
    List Event × Except Err (List Block)
  | [], cursor =>
    ([Event.callListBlocks id 100 (truthyCursor cursor)],
      Except.error "no response from transport")
  | r :: rest, cursor =>
    let ev : List Event := [Event.callListBlocks id 100 (truthyCursor cursor)]
    match r with
    | Except.error e =>
      (ev ++ [Event.logError "Failed at getBlocksByPageId"], Except.error e)
    | Except.ok resp =>
      if resp.has_more then
        let next := getBlocksGo env id rest resp.next_cursor
        (ev ++ next.1, Except.map (fun l => resp.results ++ l) next.2)
      else
        (ev, Except.ok resp.results)

/-- Embeds `getBlocksByPageId(id)`. -/
def getBlocksByPageId (env : Env) (id : String) :
    List Event × Except Err (List Block) :=
  getBlocksGo env id (env.blocksResponses id) none

/-- Embeds `appendBlockChildren(pageId, data)`: one PATCH carrying the chunk;
on a transport error it logs "Failed at appendBlockChildren" and
rethrows. -/
def appendBlockChildren (env : Env) (pageId : String) (chunk : List Block) :
    List Event × Except Err Unit :=
  match env.appendResult pageId chunk with
  | Except.ok _ => ([Event.callAppend pageId chunk], Except.ok ())
  | Except.error e =>
    ([Event.callAppend pageId chunk, Event.logError "Failed at appendBlockChildren"],
      Except.error e)

/-- Embeds `deleteBlockById(id)`: one DELETE; on a transport error it logs
"Failed at deleteBlockById" and rethrows — there is no special
treatment of missing-block (404) responses. -/
def deleteBlockById (env : Env) (blockId : Option String) :
    List Event × Except Err Unit :=
  match env.deleteResult blockId with
  | Except.ok _ => ([Event.callDelete blockId], Except.ok ())
  | Except.error e =>
    ([Event.callDelete blockId, Event.logError "Failed at deleteBlockById"],
      Except.error e)

/-- Embeds `markPageAsUpdated(pageId)`: flips `is_updated`; no rate-limiter
acquisition precedes it anywhere in the source. -/
def markPageAsUpdated (env : Env) (pageId : String) :
    List Event × Except Err Unit :=
  match env.markResult pageId with
  | Except.ok _ => ([Event.callMark pageId], Except.ok ())
  | Except.error e =>
    ([Event.callMark pageId, Event.logError "Failed at markPageAsUpdated"],
      Except.error e)

/-- Embeds `removeUnnecessaryBlockInfo(block)`: deletes the eight volatile keys
`id`, `parent`, `created_time`, `last_edited_time`, `last_edited_by`,
`has_children`, `archived`, `created_by` and returns the block. -/
def removeUnnecessaryBlockInfo (b : Block) : Block :=
  { b with
    id := none
    parent := none
    created_time := none
    last_edited_time := none
    last_edited_by := none
    has_children := none
    archived := none
    created_by := none }

/-- The spread copy `{ ...block }` at the `removeUnnecessaryBlockInfo`
call site: a fresh shallow copy, so the original block object is never
mutated. -/
def shallowCopy (b : Block) : Block :=
  { object := b.object
    id := b.id
    parent := b.parent
    created_time := b.created_time
    last_edited_time := b.last_edited_time
    last_edited_by := b.last_edited_by
    has_children := b.has_children
    archived := b.archived
    created_by := b.created_by
    type := b.type
    image := b.image
    payload := b.payload }

/-- One attempt of the body of `handleImageBlock`'s `try`: download the
bytes, MD5-hash them, `imageSize` them, derive the target file name and
content type, and upload to S3.  Returns `{fileName, imageInfo}` data on
success, the thrown error otherwise. -/
def attemptImage (env : Env) (url : String) (attempt : Nat) :
    List Event × Except Err (String × ImageInfo) :=
  match env.download url attempt with
  | Except.error e => ([Event.callDownload url], Except.error e)
  | Except.ok buff =>
    let hash := env.md5hex buff
    match env.inspect buff with
    | Except.error e => ([Event.callDownload url], Except.error e)
    | Except.ok info =>
      let mimeType := env.mimeOf info.type
      let shouldConvert := env.extsToWebp.contains info.type
      let fileName :=
        if shouldConvert then hash ++ ".webp" else hash ++ "." ++ info.type
      let contentType := if shouldConvert then "image/webp" else mimeType
      match env.upload fileName buff contentType attempt with
      | Except.error e =>
        ([Event.callDownload url, Event.callUpload fileName], Except.error e)
      | Except.ok _ =>
        ([Event.callDownload url, Event.callUpload fileName],
          Except.ok (fileName, info))

/-- The three possible JS return values of `handleImageBlock`:
`undefined` (no source URL), `{fileName, imageInfo}`, or the empty
object `{}` after the retry budget is exhausted. -/
inductive HandleRet where
  | noUrl
  | asset (fileName : String) (info : ImageInfo)
  | exhausted
  deriving Repr, DecidableEq

/-- The `while (retryCount < RETRY_TIMES)` loop of `handleImageBlock`.
`fuel` is the number of remaining iterations, `retryCount` the source
counter.  When `block.image` is `undefined`, reading `block.image.file`
throws a TypeError that the `catch` swallows like any other failure
(logging `retryCount` and the error) — so such a block burns the whole
budget and falls through to `return {}`. -/
def handleImageGo (env : Env) (img : Option ImagePayload) :
    Nat → Nat → List Event × HandleRet
  | _, 0 => ([], HandleRet.exhausted)
  | retryCount, fuel + 1 =>
    match img with
    | none =>
      let next := handleImageGo env img (retryCount + 1) fuel
      (Event.logImgFail (retryCount + 1) ::
        Event.logError "TypeError: Cannot read properties of undefined" ::
        next.1, next.2)
    | some ip =>
      match firstUrl ip with
      | none => ([], HandleRet.noUrl)
      | some url =>
        match attemptImage env url retryCount with
        | (tra, Except.ok (fn, info)) => (tra, HandleRet.asset fn info)
        | (tra, Except.error e) =>
          let next := handleImageGo env img (retryCount + 1) fuel
          (tra ++ Event.logImgFail (retryCount + 1) :: Event.logError e :: next.1,
            next.2)

/-- Embeds `handleImageBlock(block)` (given `block.image`). -/
def handleImageBlock (env : Env) (img : Option ImagePayload) :
    List Event × HandleRet :=
  handleImageGo env img 0 RETRY_TIMES

/-- The image block pushed by `updateBlocksOfPage`: external URL
`${imageDomain}/${fileName}?w=${imageInfo?.width ?? 0}&h=${imageInfo?.height ?? 0}`,
original caption preserved. -/
def imageOutBlock (env : Env) (caption : String)
    (fileName : Option String) (info : Option ImageInfo) : Block :=
  { object := some "block"
    id := none
    parent := none
    created_time := none
    last_edited_time := none
    last_edited_by := none
    has_children := none
    archived := none
    created_by := none
    type := "image"
    image := some
      { caption := caption
        type := some "external"
        file := none
        external := some
          (env.imageDomain ++ "/" ++ jsShow fileName ++ "?w=" ++
            toString ((Option.map ImageInfo.width info).getD 0) ++ "&h=" ++
            toString ((Option.map ImageInfo.height info).getD 0)) }
    payload := none }

/-- Pushing the rewritten image block.  The source reads
`block.image.caption` at the push site: when `block.image` is
`undefined` that read throws a TypeError out of the loop body. -/
def pushImage (env : Env) (img : Option ImagePayload)
    (fileName : Option String) (info : Option ImageInfo) : Except Err Block :=
  match img with
  | none => Except.error "TypeError: Cannot read properties of undefined"
  | some ip => Except.ok (imageOutBlock env ip.caption fileName info)

/-- The rewrite loop of `updateBlocksOfPage`: a non-image block is
stripped on a shallow copy and pushed; an image block goes through
`handleImageBlock` and its result object is destructured —
destructuring the `undefined` returned for a URL-less image block
throws a TypeError (`const { fileName, imageInfo } = undefined`). -/
def rewriteLoop (env : Env) : List Block → List Event × Except Err (List Block)
  | [] => ([], Except.ok [])
  | b :: rest =>
    if b.type = "image" then
      match handleImageBlock env b.image with
      | (trh, HandleRet.noUrl) =>
        (trh, Except.error "TypeError: Cannot destructure property of undefined")
      | (trh, HandleRet.asset fn info) =>
        match pushImage env b.image (some fn) (some info) with
        | Except.error e => (trh, Except.error e)
        | Except.ok nb =>
          let next := rewriteLoop env rest
          (trh ++ next.1, Except.map (fun l => nb :: l) next.2)
      | (trh, HandleRet.exhausted) =>
        match pushImage env b.image none none with
        | Except.error e => (trh, Except.error e)
        | Except.ok nb =>
          let next := rewriteLoop env rest
          (trh ++ next.1, Except.map (fun l => nb :: l) next.2)
    else
      let nb := removeUnnecessaryBlockInfo (shallowCopy b)
      let next := rewriteLoop env rest
      (next.1, Except.map (fun l => nb :: l) next.2)

/-- The delete phase: `Promise.all(blocks.map(async b => { await
rateLimiter(); return deleteBlockById(b.id); }))`.  Every mapped promise
runs (each acquiring its token and issuing its DELETE); the awaited
`Promise.all` rejects with the first rejection if any. -/
def deleteAll (env : Env) : List Block → List Event × Except Err Unit
  | [] => ([], Except.ok ())
  | b :: rest =>
    let this := deleteBlockById env b.id
    let next := deleteAll env rest
    (Event.acquire :: this.1 ++ next.1,
      match this.2 with
      | Except.error e => Except.error e
      | Except.ok _ => next.2)

/-- The body of the `splice(0, 100)` chunking loop, indexed by a fuel
bound on the number of iterations (structural recursion, so that
concrete runs compute by reduction). -/
def chunkListGo : Nat → List Block → List (List Block)
  | 0, _ => []
  | fuel + 1, l => if l = [] then [] else l.take 100 :: chunkListGo fuel (l.drop 100)

/-- The `splice(0, 100)` chunking loop.  Each iteration consumes at
least one element, so `l.length` iterations always suffice. -/
def chunkList (l : List Block) : List (List Block) :=
  chunkListGo l.length l

/-- The append phase: for each chunk, await the rate limiter then the
PATCH; a thrown error aborts the remaining chunks. -/
def appendChunks (env : Env) (pageId : String) :
    List (List Block) → List Event × Except Err Unit
  | [] => ([], Except.ok ())
  | c :: cs =>
    let this := appendBlockChildren env pageId c
    match this.2 with
    | Except.error e => (Event.acquire :: this.1, Except.error e)
    | Except.ok _ =>
      let next := appendChunks env pageId cs
      (Event.acquire :: this.1 ++ next.1, next.2)

/-- Terminal state of one page's sync. -/
inductive PageOutcome where
  | done
  | failed (e : Err)
  deriving Repr, DecidableEq

/-- The two log lines of `updateBlocksOfPage`'s `catch`. -/
def pageCatch (e : Err) : List Event :=
  [Event.logError "Failed at updateBlocksByPage", Event.logError e]

/-- The success log of `updateBlocksOfPage`
(`page.properties.title.title?.[0]?.plain_text ?? page.id`). -/
def finishMsg (page : Page) : String :=
  "Finish updating for page: " ++ (page.title.head?.getD page.id) ++ "!"

/-- Embeds `updateBlocksOfPage(page)`: fetch all blocks, rewrite them, delete
every original block, append the rewritten list in chunks of 100, mark
the page; any exception in any step is caught here, logged, and NOT
rethrown. -/
def updateBlocksOfPage (env : Env) (page : Page) : List Event × PageOutcome :=
  match getBlocksByPageId env page.id with
  | (tr1, Except.error e) => (tr1 ++ pageCatch e, PageOutcome.failed e)
  | (tr1, Except.ok blocks) =>
    match rewriteLoop env blocks with
    | (tr2, Except.error e) => (tr1 ++ tr2 ++ pageCatch e, PageOutcome.failed e)
    | (tr2, Except.ok updatedBlocks) =>
      match deleteAll env blocks with
      | (tr3, Except.error e) =>
        (tr1 ++ tr2 ++ tr3 ++ pageCatch e, PageOutcome.failed e)
      | (tr3, Except.ok _) =>
        match appendChunks env page.id (chunkList updatedBlocks) with
        | (tr4, Except.error e) =>
          (tr1 ++ tr2 ++ tr3 ++ tr4 ++ pageCatch e, PageOutcome.failed e)
        | (tr4, Except.ok _) =>
          match markPageAsUpdated env page.id with
          | (tr5, Except.error e) =>
            (tr1 ++ tr2 ++ tr3 ++ tr4 ++ tr5 ++ pageCatch e,
              PageOutcome.failed e)
          | (tr5, Except.ok _) =>
            (tr1 ++ tr2 ++ tr3 ++ tr4 ++ tr5 ++
              [Event.logInfo (finishMsg page)], PageOutcome.done)

/-- One page task of `updateAllPages`: `await rateLimiter()` then
`updateBlocksOfPage(page)` (which never rejects). -/
def runPage (env : Env) (page : Page) : List Event × (String × PageOutcome) :=
  (Event.acquire :: (updateBlocksOfPage env page).1,
    (page.id, (updateBlocksOfPage env page).2))

/-- Embeds `updateAllPages()`: list the eligible pages, drive every page task
under `Promise.all`, log completion; its `catch` can only fire for a
page-listing failure since the page tasks never reject. -/
def updateAllPages (env : Env) : List Event × List (String × PageOutcome) :=
  match getPagesByDatabaseId env env.dbId with
  | (tr, Except.error e) =>
    (tr ++ [Event.logError "Failed at handleCron", Event.logError e], [])
  | (tr, Except.ok pages) =>
    (tr ++ (pages.map (fun p => (runPage env p).1)).flatten ++
      [Event.logInfo "Finish updating for all pages!"],
      pages.map (fun p => (runPage env p).2))

/-- Is this event a rate-limiter acquisition? -/
def Event.isAcquire : Event → Bool
  | Event.acquire => true
  | _ => false

/-- Is this event a page-listing transport call? -/
def Event.isListPages : Event → Bool
  | Event.callListPages _ _ _ => true
  | _ => false

/-- Is this event a block-listing transport call? -/
def Event.isListBlocks : Event → Bool
  | Event.callListBlocks _ _ _ => true
  | _ => false

/-- Is this event an append transport call? -/
def Event.isAppend : Event → Bool
  | Event.callAppend _ _ => true
  | _ => false

/-- Is this event a delete transport call? -/
def Event.isDelete : Event → Bool
  | Event.callDelete _ => true
  | _ => false

/-- Is this event the mark-page-synchronized transport call? -/
def Event.isMark : Event → Bool
  | Event.callMark _ => true
  | _ => false

/-- The block ids of the delete calls of a trace, in order. -/
def deleteEvents (t : List Event) : List (Option String) :=
  t.filterMap fun e =>
    match e with
    | Event.callDelete i => some i
    | _ => none

/-- The chunks carried by the append calls of a trace, in order. -/
def appendPayloads (t : List Event) : List (List Block) :=
  t.filterMap fun e =>
    match e with
    | Event.callAppend _ c => some c
    | _ => none

/-- The attempt numbers of the logged image-processing failures. -/
def failLogNums (t : List Event) : List Nat :=
  t.filterMap fun e =>
    match e with
    | Event.logImgFail n => some n
    | _ => none

/-- Asserts that every `p`-event strictly precedes every `q`-event. -/
def eventsBefore (p q : Event → Bool) (t : List Event) : Prop :=
  ∀ i j (hi : i < t.length) (hj : j < t.length),
    p (t.get ⟨i, hi⟩) = true → q (t.get ⟨j, hj⟩) = true → i < j

/-- The content-API operations of the spec's §4.2 (the claim's scope). -/
def transportOp (e : Event) : Bool :=
  e.isListPages || e.isListBlocks || e.isAppend || e.isDelete || e.isMark

/-- The operations the source actually rate-limits: the paged page
query, each delete, each append chunk. -/
def limitedOp (e : Event) : Bool :=
  e.isListPages || e.isAppend || e.isDelete

/-- Prefix-wise token accounting: every prefix of the trace has at least
as many rate-limiter acquisitions as `ops`-operations, i.e. each such
operation consumed its own previously acquired token. -/
def tokenCovered (ops : Event → Bool) (t : List Event) : Prop :=
  ∀ n, (t.take n).countP ops ≤ (t.take n).countP (fun e => e.isAcquire)

/-- The pages marked synchronized in a trace, in order. -/
def markEvents (t : List Event) : List String :=
  t.filterMap fun e =>
    match e with
    | Event.callMark p => some p
    | _ => none

/-- An event internal to the rewrite phase: neither a write call of the
replace sequence, nor a token acquisition, nor a listing call. -/
def innerEvent (e : Event) : Prop :=
  e.isDelete = false ∧ e.isAppend = false ∧ e.isMark = false ∧
  e.isAcquire = false ∧ e.isListPages = false ∧ e.isListBlocks = false

/-- Every listing request of the trace asks for at most 100 items. -/
def pageSize100 (e : Event) : Prop :=
  match e with
  | Event.callListPages _ ps _ => ps = 100
  | Event.callListBlocks _ ps _ => ps = 100
  | _ => True

/-- A concrete non-image block exercising every field. -/
def blockC9 : Block :=
  { object := some "block"
    id := some "b-1"
    parent := some "p-1"
    created_time := some "2023-01-01"
    last_edited_time := some "2023-01-02"
    last_edited_by := some "u-1"
    has_children := some false
    archived := some false
    created_by := some "u-0"
    type := "paragraph"
    image := none
    payload := some "rich text" }

/-- An environment with no remote activity at all, for purely
structural witnesses. -/
def envUnit : Env :=
  { dbId := "db"
    imageDomain := "https://img.example"
    pagesResponses := []
    blocksResponses := fun _ => []
    deleteResult := fun _ => Except.ok ()
    appendResult := fun _ _ => Except.ok ()
    markResult := fun _ => Except.ok ()
    download := fun _ _ => Except.error "offline"
    inspect := fun _ => Except.error "offline"
    upload := fun _ _ _ _ => Except.error "offline"
    md5hex := fun _ => "d41d8cd98f00b204e9800998ecf8427e"
    mimeOf := fun _ => "image/png"
    extsToWebp := ["jpg", "jpeg", "png"] }

/-- A two-response paged source for pages (cursor then exhaustion). -/
def pageRespA : PagedResp Page :=
  { results := [{ id := "p1", title := ["First"] }]
    has_more := true
    next_cursor := some "cur1" }

/-- The final page response. -/
def pageRespB : PagedResp Page :=
  { results := [{ id := "p2", title := ["Second"] }]
    has_more := false
    next_cursor := none }

/-- A two-response paged source for blocks. -/
def blockRespA : PagedResp Block :=
  { results := [blockC9]
    has_more := true
    next_cursor := some "cur2" }

/-- The final block response. -/
def blockRespB : PagedResp Block :=
  { results := [{ blockC9 with id := some "b-2" }]
    has_more := false
    next_cursor := none }

/-- An environment whose paged endpoints answer `has_more=true` once
and then `false`. -/
def envPag : Env :=
  { envUnit with
    pagesResponses := [Except.ok pageRespA, Except.ok pageRespB]
    blocksResponses := fun _ =>
      [Except.ok blockRespA, Except.ok blockRespB] }

/-- The image payload used by the retry witnesses. -/
def ipC5 : ImagePayload :=
  { caption := "cap", type := some "file", file := some "u", external := none }

/-- Fails the download twice, then succeeds. -/
def envImgA : Env :=
  { envUnit with
    download := fun _ k => if k ≤ 1 then Except.error "netfail" else Except.ok [7]
    inspect := fun _ => Except.ok { type := "png", width := 3, height := 4 }
    upload := fun _ _ _ _ => Except.ok ()
    md5hex := fun _ => "abc"
    extsToWebp := ["jpg"] }

/-- Fails the download on every attempt. -/
def envImgB : Env :=
  { envUnit with
    download := fun _ _ => Except.error "netfail" }

/-- The three pages of the isolation scenario. -/
def pageP1 : Page := { id := "p1", title := ["One"] }

/-- Second page (its block listing will fail). -/
def pageP2 : Page := { id := "p2", title := ["Two"] }

/-- Third page. -/
def pageP3 : Page := { id := "p3", title := ["Three"] }

/-- Scenario environment: three eligible pages; block listing fails for
page `p2` only; every other call succeeds. -/
def env3 : Env :=
  { envUnit with
    pagesResponses :=
      [Except.ok { results := [pageP1, pageP2, pageP3]
                   has_more := false
                   next_cursor := none }]
    blocksResponses := fun pid =>
      if pid = "p2" then [Except.error "boom"]
      else [Except.ok { results := [], has_more := false, next_cursor := none }] }

/-- An image payload carrying neither a file reference nor an external
URL. -/
def ipNoUrl : ImagePayload :=
  { caption := "orphan", type := some "file", file := none, external := none }

/-- An image block with no source URL. -/
def blockNoUrl : Block :=
  { object := some "block"
    id := some "ib-1"
    parent := some "pg6"
    created_time := some "t"
    last_edited_time := some "t"
    last_edited_by := some "u"
    has_children := some false
    archived := some false
    created_by := some "u"
    type := "image"
    image := some ipNoUrl
    payload := none }

/-- The page holding only that URL-less image block. -/
def pageC6 : Page := { id := "pg6", title := ["Only image"] }

/-- Environment for the URL-less image block scenario; every remote
call would succeed. -/
def envC6 : Env :=
  { envUnit with
    blocksResponses := fun _ =>
      [Except.ok { results := [blockNoUrl], has_more := false,
                   next_cursor := none }] }

/-- The page holding nothing, for the rate-limit counterexample. -/
def pageC7 : Page := { id := "p7", title := [] }

/-- Environment with one eligible page and an empty block list; every
call succeeds on first try. -/
def envC7 : Env :=
  { envUnit with
    pagesResponses :=
      [Except.ok { results := [pageC7], has_more := false,
                   next_cursor := none }]
    blocksResponses := fun _ =>
      [Except.ok { results := [], has_more := false, next_cursor := none }] }

/-- The page of the delete-failure scenario. -/
def pageC8 : Page := { id := "p8", title := ["Stale"] }

/-- Environment where the single block's delete returns the content
API's missing-block error; everything else succeeds. -/
def envC8 : Env :=
  { envUnit with
    blocksResponses := fun _ =>
      [Except.ok { results := [blockC9], has_more := false,
                   next_cursor := none }]
    deleteResult := fun _ =>
      Except.error "Could not find block with ID: b-1" }

/-- Second paragraph block for the happy-path scenario. -/
def blockB2 : Block := { blockC9 with id := some "b-2" }

/-- The page of the happy-path scenario. -/
def pageHappy : Page := { id := "ph", title := ["Hello"] }

/-- Environment where one page with two paragraph blocks syncs
successfully end to end. -/
def envHappy : Env :=
  { envUnit with
    blocksResponses := fun _ =>
      [Except.ok { results := [blockC9, blockB2], has_more := false,
                   next_cursor := none }] }

/-- The rewritten list of the happy-path scenario. -/
def updatedHappy : List Block :=
  [removeUnnecessaryBlockInfo (shallowCopy blockC9),
    removeUnnecessaryBlockInfo (shallowCopy blockB2)]

/-- A split witness for `eventsBefore`: if no `q`-event occurs in the
first part and no `p`-event in the second, all `p`s precede all `q`s. -/
theorem eventsBefore_append {p q : Event → Bool} {t1 t2 : List Event}
    (h1 : ∀ e ∈ t1, q e = false) (h2 : ∀ e ∈ t2, p e = false) :
    eventsBefore p q (t1 ++ t2) := by
  intro i j hi hj hp hq
  have hilt : i < t1.length := by
    by_contra hge
    push_neg at hge
    have hj2 : i - t1.length < t2.length := by
      have := hi
      simp only [List.length_append] at this
      omega
    have hget : (t1 ++ t2).get ⟨i, hi⟩ = t2.get ⟨i - t1.length, hj2⟩ := by
      rw [List.get_append_right _ _ (by omega)]
    rw [hget] at hp
    have hf := h2 _ (List.get_mem t2 _ hj2)
    rw [hp] at hf
    cases hf
  have hjge : t1.length ≤ j := by
    by_contra hlt
    push_neg at hlt
    have hget : (t1 ++ t2).get ⟨j, hj⟩ = t1.get ⟨j, hlt⟩ := List.get_append j hlt
    rw [hget] at hq
    have hf := h1 _ (List.get_mem t1 _ hlt)
    rw [hq] at hf
    cases hf
  omega

/-- A trace has no append call exactly when `appendPayloads` is empty. -/
theorem appendPayloads_nil_iff {t : List Event} :
    appendPayloads t = [] ↔ ∀ e ∈ t, e.isAppend = false := by
  induction t with
  | nil => simp [appendPayloads]
  | cons e t ih =>
    cases e <;> simp [appendPayloads, Event.isAppend] at ih ⊢ <;>
      simpa [appendPayloads, Event.isAppend] using ih

/-- A trace has no delete call exactly when `deleteEvents` is empty. -/
theorem deleteEvents_nil_iff {t : List Event} :
    deleteEvents t = [] ↔ ∀ e ∈ t, e.isDelete = false := by
  induction t with
  | nil => simp [deleteEvents]
  | cons e t ih =>
    cases e <;> simp [deleteEvents, Event.isDelete] at ih ⊢ <;>
      simpa [deleteEvents, Event.isDelete] using ih

/-- A trace has no mark call exactly when `markEvents` is empty. -/
theorem markEvents_nil_iff {t : List Event} :
    markEvents t = [] ↔ ∀ e ∈ t, e.isMark = false := by
  induction t with
  | nil => simp [markEvents]
  | cons e t ih =>
    cases e <;> simp [markEvents, Event.isMark] at ih ⊢ <;>
      simpa [markEvents, Event.isMark] using ih

/-- Fact: `deleteEvents` splits over concatenation. -/
theorem deleteEvents_append (t1 t2 : List Event) :
    deleteEvents (t1 ++ t2) = deleteEvents t1 ++ deleteEvents t2 :=
  List.filterMap_append t1 t2 _

/-- Fact: `appendPayloads` splits over concatenation. -/
theorem appendPayloads_append (t1 t2 : List Event) :
    appendPayloads (t1 ++ t2) = appendPayloads t1 ++ appendPayloads t2 :=
  List.filterMap_append t1 t2 _

/-- Fact: `markEvents` splits over concatenation. -/
theorem markEvents_append (t1 t2 : List Event) :
    markEvents (t1 ++ t2) = markEvents t1 ++ markEvents t2 :=
  List.filterMap_append t1 t2 _

/-- Fact: `failLogNums` splits over concatenation. -/
theorem failLogNums_append (t1 t2 : List Event) :
    failLogNums (t1 ++ t2) = failLogNums t1 ++ failLogNums t2 :=
  List.filterMap_append t1 t2 _

/-- Token accounting survives concatenation of independently covered traces. -/
theorem tokenCovered_append {ops : Event → Bool} {t1 t2 : List Event}
    (h1 : tokenCovered ops t1) (h2 : tokenCovered ops t2) :
    tokenCovered ops (t1 ++ t2) := by
  intro n
  rw [List.take_append_eq_append_take, List.countP_append, List.countP_append]
  exact Nat.add_le_add (h1 n) (h2 (n - t1.length))

/-- A trace with no rate-limited operation is trivially covered. -/
theorem tokenCovered_of_none {ops : Event → Bool} {t : List Event}
    (h : t.countP ops = 0) : tokenCovered ops t := by
  intro n
  have : (t.take n).countP ops = 0 := by
    have hsub : (t.take n).countP ops ≤ t.countP ops :=
      List.Sublist.countP_le ops (List.take_sublist n t)
    omega
  omega

/-- A token acquisition followed by at most one rate-limited operation
is covered. -/
theorem tokenCovered_acquire_cons {ops : Event → Bool} {t : List Event}
    (hops : t.countP ops ≤ 1) (hacq : ops Event.acquire = false) :
    tokenCovered ops (Event.acquire :: t) := by
  intro n
  cases n with
  | zero => simp
  | succ n =>
    simp only [List.take_succ_cons, List.countP_cons, hacq, Event.isAcquire]
    have hsub : (t.take n).countP ops ≤ t.countP ops :=
      List.Sublist.countP_le ops (List.take_sublist n t)
    simp
    omega

/-- The page-listing loop emits only token acquisitions and page-query
calls: no delete, append, mark, or block-listing event. -/
theorem getPagesGo_pure (env : Env) (id : String) :
    ∀ rs cur, ∀ e ∈ (getPagesGo env id rs cur).1,
      e.isDelete = false ∧ e.isAppend = false ∧ e.isMark = false ∧
      e.isListBlocks = false := by
  intro rs
  induction rs with
  | nil =>
    intro cur e he
    simp [getPagesGo] at he
    rcases he with he | he <;> subst he <;>
      simp [Event.isDelete, Event.isAppend, Event.isMark, Event.isListBlocks]
  | cons r rest ih =>
    intro cur e he
    cases r with
    | error e2 =>
      simp [getPagesGo] at he
      rcases he with he | he <;> subst he <;>
        simp [Event.isDelete, Event.isAppend, Event.isMark, Event.isListBlocks]
    | ok resp =>
      by_cases hm : resp.has_more
      · simp only [getPagesGo, hm, if_true, List.cons_append, List.nil_append,
          List.mem_cons] at he
        rcases he with he | he | he
        · subst he
          simp [Event.isDelete, Event.isAppend, Event.isMark, Event.isListBlocks]
        · subst he
          simp [Event.isDelete, Event.isAppend, Event.isMark, Event.isListBlocks]
        · exact ih resp.next_cursor e he
      · simp [getPagesGo, hm] at he
        rcases he with he | he <;> subst he <;>
          simp [Event.isDelete, Event.isAppend, Event.isMark, Event.isListBlocks]

/-- The block-listing loop emits only block-query calls and error logs:
no delete, append, or mark event, and — unlike the page query — no
rate-limiter acquisition and no rate-limited operation. -/
theorem getBlocksGo_pure (env : Env) (id : String) :
    ∀ rs cur, ∀ e ∈ (getBlocksGo env id rs cur).1,
      e.isDelete = false ∧ e.isAppend = false ∧ e.isMark = false ∧
      e.isAcquire = false ∧ limitedOp e = false := by
  intro rs
  induction rs with
  | nil =>
    intro cur e he
    simp [getBlocksGo] at he
    subst he
    simp [Event.isDelete, Event.isAppend, Event.isMark, Event.isAcquire,
      limitedOp, Event.isListPages]
  | cons r rest ih =>
    intro cur e he
    cases r with
    | error e2 =>
      simp [getBlocksGo] at he
      rcases he with he | he <;> subst he <;>
        simp [Event.isDelete, Event.isAppend, Event.isMark, Event.isAcquire,
          limitedOp, Event.isListPages]
    | ok resp =>
      by_cases hm : resp.has_more
      · simp only [getBlocksGo, hm, if_true, List.cons_append, List.nil_append,
          List.mem_cons] at he
        rcases he with he | he
        · subst he
          simp [Event.isDelete, Event.isAppend, Event.isMark, Event.isAcquire,
            limitedOp, Event.isListPages]
        · exact ih resp.next_cursor e he
      · simp [getBlocksGo, hm] at he
        subst he
        simp [Event.isDelete, Event.isAppend, Event.isMark, Event.isAcquire,
          limitedOp, Event.isListPages]

/-- One image-processing attempt only downloads and uploads. -/
theorem attemptImage_pure (env : Env) (url : String) (k : Nat) :
    ∀ e ∈ (attemptImage env url k).1, innerEvent e := by
  intro e he
  unfold attemptImage at he
  split at he
  · simp at he
    subst he
    simp [innerEvent, Event.isDelete, Event.isAppend, Event.isMark,
      Event.isAcquire, Event.isListPages, Event.isListBlocks]
  · split at he
    · simp at he
      subst he
      simp [innerEvent, Event.isDelete, Event.isAppend, Event.isMark,
        Event.isAcquire, Event.isListPages, Event.isListBlocks]
    · dsimp only [] at he
      split at he <;>
        · simp at he
          rcases he with he | he <;> subst he <;>
            simp [innerEvent, Event.isDelete, Event.isAppend, Event.isMark,
              Event.isAcquire, Event.isListPages, Event.isListBlocks]

/-- An image-processing attempt never logs a retry failure itself. -/
theorem attemptImage_noFailLog (env : Env) (url : String) (k : Nat) :
    failLogNums (attemptImage env url k).1 = [] := by
  unfold attemptImage
  split
  · simp [failLogNums]
  · split
    · simp [failLogNums]
    · dsimp only []
      split <;> simp [failLogNums]

/-- The retry loop of `handleImageBlock` only downloads, uploads and logs. -/
theorem handleImageGo_pure (env : Env) (img : Option ImagePayload) :
    ∀ fuel retryCount, ∀ e ∈ (handleImageGo env img retryCount fuel).1,
      innerEvent e := by
  intro fuel
  induction fuel with
  | zero =>
    intro retryCount e he
    simp [handleImageGo] at he
  | succ fuel ih =>
    intro retryCount e he
    cases img with
    | none =>
      simp only [handleImageGo, List.mem_cons] at he
      rcases he with he | he | he
      · subst he
        simp [innerEvent, Event.isDelete, Event.isAppend, Event.isMark,
          Event.isAcquire, Event.isListPages, Event.isListBlocks]
      · subst he
        simp [innerEvent, Event.isDelete, Event.isAppend, Event.isMark,
          Event.isAcquire, Event.isListPages, Event.isListBlocks]
      · exact ih (retryCount + 1) e he
    | some ip =>
      simp only [handleImageGo] at he
      split at he
      · simp at he
      · rename_i url hu
        split at he
        · rename_i tra fn info heq
          have hp := attemptImage_pure env url retryCount e
          rw [heq] at hp
          exact hp he
        · rename_i tra e2 heq
          simp only [List.mem_append, List.mem_cons] at he
          rcases he with he | he | he | he
          · have hp := attemptImage_pure env url retryCount e
            rw [heq] at hp
            exact hp he
          · subst he
            simp [innerEvent, Event.isDelete, Event.isAppend, Event.isMark,
              Event.isAcquire, Event.isListPages, Event.isListBlocks]
          · subst he
            simp [innerEvent, Event.isDelete, Event.isAppend, Event.isMark,
              Event.isAcquire, Event.isListPages, Event.isListBlocks]
          · exact ih (retryCount + 1) e he

/-- The rewrite loop only downloads, uploads and logs: it issues no
delete, append, mark or listing call and acquires no token. -/
theorem rewriteLoop_pure (env : Env) :
    ∀ bs, ∀ e ∈ (rewriteLoop env bs).1, innerEvent e := by
  intro bs
  induction bs with
  | nil =>
    intro e he
    simp [rewriteLoop] at he
  | cons b rest ih =>
    intro e he
    by_cases hb : b.type = "image"
    · simp only [rewriteLoop, hb, if_true] at he
      split at he
      · rename_i trh heq
        have hpure := handleImageGo_pure env b.image RETRY_TIMES 0
        rw [show handleImageGo env b.image 0 RETRY_TIMES
            = (trh, HandleRet.noUrl) from heq] at hpure
        exact hpure e he
      · rename_i trh fn info heq
        have hpure := handleImageGo_pure env b.image RETRY_TIMES 0
        rw [show handleImageGo env b.image 0 RETRY_TIMES
            = (trh, HandleRet.asset fn info) from heq] at hpure
        split at he
        · exact hpure e he
        · rcases List.mem_append.mp he with he | he
          · exact hpure e he
          · exact ih e he
      · rename_i trh heq
        have hpure := handleImageGo_pure env b.image RETRY_TIMES 0
        rw [show handleImageGo env b.image 0 RETRY_TIMES
            = (trh, HandleRet.exhausted) from heq] at hpure
        split at he
        · exact hpure e he
        · rcases List.mem_append.mp he with he | he
          · exact hpure e he
          · exact ih e he
    · simp only [rewriteLoop, hb, if_false] at he
      exact ih e he

/-- The page-level catch only logs. -/
theorem pageCatch_pure (e0 : Err) : ∀ e ∈ pageCatch e0, innerEvent e := by
  intro e he
  simp [pageCatch] at he
  rcases he with he | he <;> subst he <;>
    simp [innerEvent, Event.isDelete, Event.isAppend, Event.isMark,
      Event.isAcquire, Event.isListPages, Event.isListBlocks]

/-- The mark call issues neither a delete nor an append nor a listing
call, acquires no token, and performs no rate-limited operation. -/
theorem mark_pure (env : Env) (pid : String) :
    ∀ e ∈ (markPageAsUpdated env pid).1,
      e.isDelete = false ∧ e.isAppend = false ∧ e.isAcquire = false ∧
      limitedOp e = false := by
  intro e he
  unfold markPageAsUpdated at he
  split at he
  · simp at he
    subst he
    simp [Event.isDelete, Event.isAppend, Event.isAcquire, limitedOp,
      Event.isListPages]
  · simp at he
    rcases he with he | he <;> subst he <;>
      simp [Event.isDelete, Event.isAppend, Event.isAcquire, limitedOp,
        Event.isListPages]

/-- The delete phase issues exactly one delete per block of the fetched
list, in order, carrying that block's original identifier. -/
theorem deleteAll_deleteEvents (env : Env) :
    ∀ bs, deleteEvents (deleteAll env bs).1 = bs.map (fun b => b.id) := by
  intro bs
  induction bs with
  | nil => simp [deleteAll, deleteEvents]
  | cons b rest ih =>
    simp only [deleteAll]
    unfold deleteBlockById
    cases env.deleteResult b.id <;>
      simp only [List.cons_append, deleteEvents, List.filterMap_cons,
        List.filterMap_append] <;>
      simp [deleteEvents, List.filterMap_append] at ih ⊢ <;>
      exact ih

/-- The delete phase issues no append, mark, or listing call. -/
theorem deleteAll_pure (env : Env) :
    ∀ bs, ∀ e ∈ (deleteAll env bs).1,
      e.isAppend = false ∧ e.isMark = false ∧ e.isListPages = false ∧
      e.isListBlocks = false := by
  intro bs
  induction bs with
  | nil =>
    intro e he
    simp [deleteAll] at he
  | cons b rest ih =>
    intro e he
    simp only [deleteAll, List.cons_append, List.mem_cons] at he
    rcases he with he | he
    · subst he
      simp [Event.isAppend, Event.isMark, Event.isListPages, Event.isListBlocks]
    · rcases List.mem_append.mp he with he | he
      · unfold deleteBlockById at he
        split at he
        · simp at he
          subst he
          simp [Event.isAppend, Event.isMark, Event.isListPages,
            Event.isListBlocks]
        · simp at he
          rcases he with he | he <;> subst he <;>
            simp [Event.isAppend, Event.isMark, Event.isListPages,
              Event.isListBlocks]
      · exact ih e he

/-- The append phase issues no delete, mark, or listing call. -/
theorem appendChunks_pure (env : Env) (pid : String) :
    ∀ cs, ∀ e ∈ (appendChunks env pid cs).1,
      e.isDelete = false ∧ e.isMark = false ∧ e.isListPages = false ∧
      e.isListBlocks = false := by
  intro cs
  induction cs with
  | nil =>
    intro e he
    simp [appendChunks] at he
  | cons c rest ih =>
    intro e he
    simp only [appendChunks] at he
    split at he
    · rename_i e2 heq
      simp only [List.mem_cons] at he
      rcases he with he | he
      · subst he
        simp [Event.isDelete, Event.isMark, Event.isListPages,
          Event.isListBlocks]
      · unfold appendBlockChildren at he
        split at he
        · simp at he
          subst he
          simp [Event.isDelete, Event.isMark, Event.isListPages,
            Event.isListBlocks]
        · simp at he
          rcases he with he | he <;> subst he <;>
            simp [Event.isDelete, Event.isMark, Event.isListPages,
              Event.isListBlocks]
    · simp only [List.cons_append, List.mem_cons] at he
      rcases he with he | he
      · subst he
        simp [Event.isDelete, Event.isMark, Event.isListPages,
          Event.isListBlocks]
      · rcases List.mem_append.mp he with he | he
        · unfold appendBlockChildren at he
          split at he
          · simp at he
            subst he
            simp [Event.isDelete, Event.isMark, Event.isListPages,
              Event.isListBlocks]
          · simp at he
            rcases he with he | he <;> subst he <;>
              simp [Event.isDelete, Event.isMark, Event.isListPages,
                Event.isListBlocks]
        · exact ih e he

/-- An `Except Err Unit` is `ok ()` or some error. -/
theorem exceptUnit_cases (r : Except Err Unit) :
    r = Except.ok () ∨ ∃ e, r = Except.error e := by
  cases r with
  | ok u => cases u; exact Or.inl rfl
  | error e => exact Or.inr ⟨e, rfl⟩

/-- The awaited `Promise.all` of the delete phase resolves exactly when
every single delete resolved. -/
theorem deleteAll_ok_iff (env : Env) :
    ∀ bs, (deleteAll env bs).2 = Except.ok () ↔
      ∀ b ∈ bs, env.deleteResult b.id = Except.ok () := by
  intro bs
  induction bs with
  | nil => simp [deleteAll]
  | cons b rest ih =>
    simp only [deleteAll, List.mem_cons]
    unfold deleteBlockById
    rcases hd : env.deleteResult b.id with e | u
    · simp [hd]
    · cases u
      simp only []
      constructor
      · intro hok x hx
        rcases hx with hx | hx
        · subst hx
          exact hd
        · exact (ih.mp hok) x hx
      · intro hall
        exact ih.mpr (fun x hx => hall x (Or.inr hx))

/-- If one block's delete rejects, the awaited `Promise.all` rejects. -/
theorem deleteAll_error_of_mem (env : Env) {bs : List Block} {b : Block}
    {e : Err} (hb : b ∈ bs) (he : env.deleteResult b.id = Except.error e) :
    ∃ e2, (deleteAll env bs).2 = Except.error e2 := by
  rcases exceptUnit_cases (deleteAll env bs).2 with hok | herr
  · have := (deleteAll_ok_iff env bs).mp hok b hb
    rw [he] at this
    cases this
  · exact herr

/-- The sequential append loop completes exactly when every chunk's
PATCH resolved. -/
theorem appendChunks_ok_iff (env : Env) (pid : String) :
    ∀ cs, (appendChunks env pid cs).2 = Except.ok () ↔
      ∀ c ∈ cs, env.appendResult pid c = Except.ok () := by
  intro cs
  induction cs with
  | nil => simp [appendChunks]
  | cons c rest ih =>
    simp only [appendChunks, List.mem_cons]
    rcases ha : env.appendResult pid c with e | u
    · have hthis : (appendBlockChildren env pid c).2 = Except.error e := by
        unfold appendBlockChildren
        rw [ha]
      rw [hthis]
      simp only []
      constructor
      · intro hcon
        cases hcon
      · intro hall
        have := hall c (Or.inl rfl)
        rw [ha] at this
        cases this
    · cases u
      have hthis : (appendBlockChildren env pid c).2 = Except.ok () := by
        unfold appendBlockChildren
        rw [ha]
      rw [hthis]
      simp only []
      constructor
      · intro hok x hx
        rcases hx with hx | hx
        · subst hx
          exact ha
        · exact (ih.mp hok) x hx
      · intro hall
        exact ih.mpr (fun x hx => hall x (Or.inr hx))

/-- A leading token acquisition contributes no append payload. -/
theorem appendPayloads_cons_acquire (t : List Event) :
    appendPayloads (Event.acquire :: t) = appendPayloads t := by
  simp [appendPayloads]

/-- A leading append call contributes its chunk. -/
theorem appendPayloads_cons_call (pid : String) (c : List Block)
    (t : List Event) :
    appendPayloads (Event.callAppend pid c :: t) = c :: appendPayloads t := by
  simp [appendPayloads]

/-- When the append loop completes, the appended chunks of its trace
are exactly the chunk list, in order. -/
theorem appendChunks_ok_payloads (env : Env) (pid : String) :
    ∀ cs, (appendChunks env pid cs).2 = Except.ok () →
      appendPayloads (appendChunks env pid cs).1 = cs := by
  intro cs
  induction cs with
  | nil =>
    intro _
    simp [appendChunks, appendPayloads]
  | cons c rest ih =>
    intro hok
    have hc : env.appendResult pid c = Except.ok () :=
      (appendChunks_ok_iff env pid (c :: rest)).mp hok c (List.mem_cons_self c rest)
    have hthis : appendBlockChildren env pid c
        = ([Event.callAppend pid c], Except.ok ()) := by
      unfold appendBlockChildren
      rw [hc]
    have hrest : (appendChunks env pid rest).2 = Except.ok () := by
      apply (appendChunks_ok_iff env pid rest).mpr
      intro x hx
      exact (appendChunks_ok_iff env pid (c :: rest)).mp hok x (List.mem_cons_of_mem c hx)
    simp only [appendChunks, hthis]
    rw [appendPayloads_append, ih hrest]
    simp [appendPayloads]

/-- A trace whose events are all `innerEvent`s is trivially covered. -/
theorem tokenCovered_of_inner {t : List Event}
    (h : ∀ e ∈ t, innerEvent e) : tokenCovered limitedOp t := by
  apply tokenCovered_of_none
  rw [List.countP_eq_zero]
  intro e he
  rcases h e he with ⟨h1, h2, _, _, h5, _⟩
  simp [limitedOp, h1, h2, h5]

/-- Every page-query request of the listing loop consumes the token
acquired immediately before it. -/
theorem getPagesGo_cov (env : Env) (id : String) :
    ∀ rs cur, tokenCovered limitedOp (getPagesGo env id rs cur).1 := by
  intro rs
  induction rs with
  | nil =>
    intro cur
    apply tokenCovered_acquire_cons
    · simp [limitedOp, Event.isListPages, Event.isAppend, Event.isDelete]
    · simp [limitedOp, Event.isListPages, Event.isAppend, Event.isDelete]
  | cons r rest ih =>
    intro cur
    cases r with
    | error e =>
      simp only [getPagesGo]
      apply tokenCovered_acquire_cons
      · simp [limitedOp, Event.isListPages, Event.isAppend, Event.isDelete]
      · simp [limitedOp, Event.isListPages, Event.isAppend, Event.isDelete]
    | ok resp =>
      by_cases hm : resp.has_more
      · simp only [getPagesGo, hm, if_true]
        have hseg : tokenCovered limitedOp
            [Event.acquire, Event.callListPages id 100 (truthyCursor cur)] := by
          apply tokenCovered_acquire_cons
          · simp [limitedOp, Event.isListPages, Event.isAppend, Event.isDelete]
          · simp [limitedOp, Event.isListPages, Event.isAppend, Event.isDelete]
        have := tokenCovered_append hseg (ih resp.next_cursor)
        simpa using this
      · simp only [getPagesGo, hm, if_false]
        apply tokenCovered_acquire_cons
        · simp [limitedOp, Event.isListPages, Event.isAppend, Event.isDelete]
        · simp [limitedOp, Event.isListPages, Event.isAppend, Event.isDelete]

/-- The block-listing loop performs no rate-limited operation at all,
so it is (vacuously) covered. -/
theorem getBlocksGo_cov (env : Env) (id : String) (rs : List (Except Err (PagedResp Block))) (cur : Option String) :
    tokenCovered limitedOp (getBlocksGo env id rs cur).1 := by
  apply tokenCovered_of_none
  rw [List.countP_eq_zero]
  intro e he
  rcases getBlocksGo_pure env id rs cur e he with ⟨_, _, _, _, h5⟩
  simp [h5]

/-- Every delete of the delete phase consumes the token acquired by its
own mapped promise. -/
theorem deleteAll_cov (env : Env) :
    ∀ bs, tokenCovered limitedOp (deleteAll env bs).1 := by
  intro bs
  induction bs with
  | nil => exact tokenCovered_of_none (by simp [deleteAll])
  | cons b rest ih =>
    simp only [deleteAll]
    have hseg : tokenCovered limitedOp (Event.acquire :: (deleteBlockById env b.id).1) := by
      apply tokenCovered_acquire_cons
      · unfold deleteBlockById
        split <;>
          simp [limitedOp, Event.isListPages, Event.isAppend, Event.isDelete]
      · simp [limitedOp, Event.isListPages, Event.isAppend, Event.isDelete]
    have := tokenCovered_append hseg ih
    simpa using this

/-- Every append chunk consumes the token acquired just before it. -/
theorem appendChunks_cov (env : Env) (pid : String) :
    ∀ cs, tokenCovered limitedOp (appendChunks env pid cs).1 := by
  intro cs
  induction cs with
  | nil => exact tokenCovered_of_none (by simp [appendChunks])
  | cons c rest ih =>
    have hseg : tokenCovered limitedOp (Event.acquire :: (appendBlockChildren env pid c).1) := by
      apply tokenCovered_acquire_cons
      · unfold appendBlockChildren
        split <;>
          simp [limitedOp, Event.isListPages, Event.isAppend, Event.isDelete]
      · simp [limitedOp, Event.isListPages, Event.isAppend, Event.isDelete]
    simp only [appendChunks]
    split
    · exact hseg
    · have := tokenCovered_append hseg ih
      simpa using this

/-- The mark call is covered only because it is not rate-limited. -/
theorem mark_cov (env : Env) (pid : String) :
    tokenCovered limitedOp (markPageAsUpdated env pid).1 := by
  apply tokenCovered_of_none
  rw [List.countP_eq_zero]
  intro e he
  rcases mark_pure env pid e he with ⟨_, _, _, h4⟩
  simp [h4]

/-- With enough fuel, the chunks concatenate back to the input. -/
theorem chunkListGo_flatten :
    ∀ fuel (l : List Block), l.length ≤ fuel →
      (chunkListGo fuel l).flatten = l := by
  intro fuel
  induction fuel with
  | zero =>
    intro l h
    have hl : l = [] := List.eq_nil_of_length_eq_zero (Nat.le_zero.mp h)
    subst hl
    rfl
  | succ n ih =>
    intro l h
    by_cases hl : l = []
    · subst hl
      rfl
    · have hpos : 0 < l.length :=
        Nat.pos_of_ne_zero (fun hz => hl (List.eq_nil_of_length_eq_zero hz))
      simp only [chunkListGo, hl, if_false]
      rw [List.flatten_cons, ih (l.drop 100) (by simp [List.length_drop]; omega),
        List.take_append_drop]

/-- The `splice(0, 100)` chunks concatenate back to the original list:
chunking drops nothing, duplicates nothing, and keeps the order. -/
theorem chunkList_flatten (l : List Block) : (chunkList l).flatten = l :=
  chunkListGo_flatten l.length l le_rfl

/-- Every chunk that the fuelled loop emits holds at most 100 blocks. -/
theorem chunkListGo_le_100 :
    ∀ fuel (l : List Block), ∀ c ∈ chunkListGo fuel l, c.length ≤ 100 := by
  intro fuel
  induction fuel with
  | zero =>
    intro l c hc
    simp [chunkListGo] at hc
  | succ n ih =>
    intro l c hc
    by_cases hl : l = []
    · subst hl
      simp [chunkListGo] at hc
    · simp only [chunkListGo, hl, if_false] at hc
      rcases List.mem_cons.mp hc with hc | hc
      · subst hc
        simp [List.length_take]
      · exact ih (l.drop 100) c hc

/-- Every `splice(0, 100)` chunk holds at most 100 blocks. -/
theorem chunkList_le_100 (l : List Block) :
    ∀ c ∈ chunkList l, c.length ≤ 100 :=
  chunkListGo_le_100 l.length l

/-- A successful rewrite emits exactly one output block per input block:
nothing is dropped (a URL-less image block would instead have failed the
whole rewrite). -/
theorem rewriteLoop_ok_length (env : Env) :
    ∀ bs u, (rewriteLoop env bs).2 = Except.ok u → u.length = bs.length := by
  intro bs
  induction bs with
  | nil =>
    intro u hu
    simp [rewriteLoop] at hu
    subst hu
    rfl
  | cons b rest ih =>
    intro u hu
    by_cases hb : b.type = "image"
    · simp only [rewriteLoop, hb, if_true] at hu
      split at hu
      · cases hu
      · split at hu
        · cases hu
        · rcases hr : (rewriteLoop env rest).2 with e | l
          · rw [hr] at hu
            cases hu
          · rw [hr] at hu
            simp only [Except.map] at hu
            cases hu
            simpa using ih l hr
      · split at hu
        · cases hu
        · rcases hr : (rewriteLoop env rest).2 with e | l
          · rw [hr] at hu
            cases hu
          · rw [hr] at hu
            simp only [Except.map] at hu
            cases hu
            simpa using ih l hr
    · simp only [rewriteLoop, hb, if_false] at hu
      rcases hr : (rewriteLoop env rest).2 with e | l
      · rw [hr] at hu
        cases hu
      · rw [hr] at hu
        simp only [Except.map] at hu
        cases hu
        simpa using ih l hr

/-- In a successful rewrite, every non-image input block appears at its
own position as exactly its volatile-field-stripped shallow copy. -/
theorem rewriteLoop_ok_get (env : Env) :
    ∀ bs u, (rewriteLoop env bs).2 = Except.ok u →
      ∀ i (hbi : i < bs.length) (hui : i < u.length),
        (bs.get ⟨i, hbi⟩).type ≠ "image" →
        u.get ⟨i, hui⟩ =
          removeUnnecessaryBlockInfo (shallowCopy (bs.get ⟨i, hbi⟩)) := by
  intro bs
  induction bs with
  | nil =>
    intro u hu i hbi
    simp at hbi
  | cons b rest ih =>
    intro u hu i hbi hui hni
    by_cases hb : b.type = "image"
    · simp only [rewriteLoop, hb, if_true] at hu
      split at hu
      · cases hu
      · split at hu
        · cases hu
        · rename_i nb hp
          rcases hr : (rewriteLoop env rest).2 with e | l
          · rw [hr] at hu
            cases hu
          · rw [hr] at hu
            simp only [Except.map] at hu
            cases hu
            cases i with
            | zero =>
              simp [List.get] at hni
              exact absurd hb hni
            | succ i =>
              exact ih l hr i (by simpa using hbi) (by simpa using hui)
                (by simpa using hni)
      · split at hu
        · cases hu
        · rename_i nb hp
          rcases hr : (rewriteLoop env rest).2 with e | l
          · rw [hr] at hu
            cases hu
          · rw [hr] at hu
            simp only [Except.map] at hu
            cases hu
            cases i with
            | zero =>
              simp [List.get] at hni
              exact absurd hb hni
            | succ i =>
              exact ih l hr i (by simpa using hbi) (by simpa using hui)
                (by simpa using hni)
    · simp only [rewriteLoop, hb, if_false] at hu
      rcases hr : (rewriteLoop env rest).2 with e | l
      · rw [hr] at hu
        cases hu
      · rw [hr] at hu
        simp only [Except.map] at hu
        cases hu
        cases i with
        | zero => rfl
        | succ i =>
          exact ih l hr i (by simpa using hbi) (by simpa using hui)
            (by simpa using hni)

/-- A source answering `has_more=true` for every response of `init` and
then `false` on `lastR` makes the page-listing loop return exactly the
concatenation of all the responses' results, issuing one 100-sized
request per response. -/
theorem getPagesGo_ok (env : Env) (id : String) :
    ∀ (init : List (PagedResp Page)) (lastR : PagedResp Page) cur,
      (∀ r ∈ init, r.has_more = true) → lastR.has_more = false →
      (getPagesGo env id ((init ++ [lastR]).map Except.ok) cur).2 =
        Except.ok (((init ++ [lastR]).map PagedResp.results).flatten) ∧
      ((getPagesGo env id ((init ++ [lastR]).map Except.ok) cur).1.countP
        (fun e => e.isListPages)) = init.length + 1 ∧
      ∀ e ∈ (getPagesGo env id ((init ++ [lastR]).map Except.ok) cur).1,
        pageSize100 e := by
  intro init
  induction init with
  | nil =>
    intro lastR cur hinit hlast
    simp only [List.nil_append, List.map_cons, List.map_nil]
    refine ⟨?_, ?_, ?_⟩
    · simp [getPagesGo, hlast]
    · simp [getPagesGo, hlast, Event.isListPages]
    · intro e he
      simp [getPagesGo, hlast] at he
      rcases he with he | he <;> subst he <;> simp [pageSize100]
  | cons r rest ih =>
    intro lastR cur hinit hlast
    have hr : r.has_more = true := hinit r (List.mem_cons_self r rest)
    rcases ih lastR r.next_cursor
        (fun x hx => hinit x (List.mem_cons_of_mem r hx)) hlast with
      ⟨ih1, ih2, ih3⟩
    simp only [List.cons_append, List.map_cons]
    refine ⟨?_, ?_, ?_⟩
    · simp only [getPagesGo, hr, if_true]
      rw [ih1]
      simp [Except.map]
    · simp only [getPagesGo, hr, if_true]
      rw [List.countP_append]
      rw [ih2]
      simp [Event.isListPages]
      omega
    · intro e he
      simp only [getPagesGo, hr, if_true, List.cons_append, List.nil_append,
        List.mem_cons] at he
      rcases he with he | he | he
      · subst he
        simp [pageSize100]
      · subst he
        simp [pageSize100]
      · exact ih3 e he

/-- Same pagination property for the block-listing loop. -/
theorem getBlocksGo_ok (env : Env) (id : String) :
    ∀ (init : List (PagedResp Block)) (lastR : PagedResp Block) cur,
      (∀ r ∈ init, r.has_more = true) → lastR.has_more = false →
      (getBlocksGo env id ((init ++ [lastR]).map Except.ok) cur).2 =
        Except.ok (((init ++ [lastR]).map PagedResp.results).flatten) ∧
      ((getBlocksGo env id ((init ++ [lastR]).map Except.ok) cur).1.countP
        (fun e => e.isListBlocks)) = init.length + 1 ∧
      ∀ e ∈ (getBlocksGo env id ((init ++ [lastR]).map Except.ok) cur).1,
        pageSize100 e := by
  intro init
  induction init with
  | nil =>
    intro lastR cur hinit hlast
    simp only [List.nil_append, List.map_cons, List.map_nil]
    refine ⟨?_, ?_, ?_⟩
    · simp [getBlocksGo, hlast]
    · simp [getBlocksGo, hlast, Event.isListBlocks]
    · intro e he
      simp [getBlocksGo, hlast] at he
      subst he
      simp [pageSize100]
  | cons r rest ih =>
    intro lastR cur hinit hlast
    have hr : r.has_more = true := hinit r (List.mem_cons_self r rest)
    rcases ih lastR r.next_cursor
        (fun x hx => hinit x (List.mem_cons_of_mem r hx)) hlast with
      ⟨ih1, ih2, ih3⟩
    simp only [List.cons_append, List.map_cons]
    refine ⟨?_, ?_, ?_⟩
    · simp only [getBlocksGo, hr, if_true]
      rw [ih1]
      simp [Except.map]
    · simp only [getBlocksGo, hr, if_true]
      rw [List.countP_append]
      rw [ih2]
      simp [Event.isListBlocks]
      omega
    · intro e he
      simp only [getBlocksGo, hr, if_true, List.cons_append, List.nil_append,
        List.mem_cons] at he
      rcases he with he | he
      · subst he
        simp [pageSize100]
      · exact ih3 e he

/-- A trace with no `p`-event satisfies any `p`-before-`q` ordering. -/
theorem eventsBefore_of_no_p {p q : Event → Bool} {t : List Event}
    (h : ∀ e ∈ t, p e = false) : eventsBefore p q t := by
  have := @eventsBefore_append p q [] t (by simp) h
  simpa using this

/-- A trace with no `q`-event satisfies any `p`-before-`q` ordering. -/
theorem eventsBefore_of_no_q {p q : Event → Bool} {t : List Event}
    (h : ∀ e ∈ t, q e = false) : eventsBefore p q t := by
  have := @eventsBefore_append p q t [] h (by simp)
  simpa using this

/-- C2: within one page's sync, every delete is issued (and, the await
being modelled atomically, completed) before the first append, every
append before the mark, and the mark is issued only when block fetch,
rewrite, every delete and every append chunk all succeeded. -/
theorem claim_C2 (env : Env) (page : Page) :
    eventsBefore Event.isDelete Event.isAppend (updateBlocksOfPage env page).1 ∧
    eventsBefore Event.isAppend Event.isMark (updateBlocksOfPage env page).1 ∧
    (markEvents (updateBlocksOfPage env page).1 ≠ [] →
      ∃ blocks updated,
        (getBlocksByPageId env page.id).2 = Except.ok blocks ∧
        (rewriteLoop env blocks).2 = Except.ok updated ∧
        (deleteAll env blocks).2 = Except.ok () ∧
        (appendChunks env page.id (chunkList updated)).2 = Except.ok ()) := by
  rcases hg : getBlocksByPageId env page.id with ⟨tr1, r1⟩
  have h1 : ∀ e ∈ tr1, e.isDelete = false ∧ e.isAppend = false ∧
      e.isMark = false ∧ e.isAcquire = false ∧ limitedOp e = false := by
    have hx := getBlocksGo_pure env page.id (env.blocksResponses page.id) none
    rw [show getBlocksGo env page.id (env.blocksResponses page.id) none
        = (tr1, r1) from hg] at hx
    exact hx
  have hpc : ∀ e0 : Err, ∀ e ∈ pageCatch e0,
      e.isDelete = false ∧ e.isAppend = false ∧ e.isMark = false := by
    intro e0 e he
    rcases pageCatch_pure e0 e he with ⟨a, b, c, _⟩
    exact ⟨a, b, c⟩
  cases r1 with
  | error e0 =>
    simp only [updateBlocksOfPage, hg]
    have hnd : ∀ e ∈ tr1 ++ pageCatch e0, e.isDelete = false := by
      intro e he
      rcases List.mem_append.mp he with he | he
      · exact (h1 e he).1
      · exact (hpc e0 e he).1
    have hnm : ∀ e ∈ tr1 ++ pageCatch e0, e.isMark = false := by
      intro e he
      rcases List.mem_append.mp he with he | he
      · exact (h1 e he).2.2.1
      · exact (hpc e0 e he).2.2
    refine ⟨eventsBefore_of_no_p hnd, eventsBefore_of_no_q hnm, ?_⟩
    intro hne
    exact absurd (markEvents_nil_iff.mpr hnm) hne
  | ok blocks =>
    rcases hr : rewriteLoop env blocks with ⟨tr2, r2⟩
    have h2 : ∀ e ∈ tr2, innerEvent e := by
      have hx := rewriteLoop_pure env blocks
      rw [hr] at hx
      exact hx
    cases r2 with
    | error e0 =>
      simp only [updateBlocksOfPage, hg, hr]
      have hnd : ∀ e ∈ tr1 ++ tr2 ++ pageCatch e0, e.isDelete = false := by
        intro e he
        rcases List.mem_append.mp he with he | he
        · rcases List.mem_append.mp he with he | he
          · exact (h1 e he).1
          · exact (h2 e he).1
        · exact (hpc e0 e he).1
      have hnm : ∀ e ∈ tr1 ++ tr2 ++ pageCatch e0, e.isMark = false := by
        intro e he
        rcases List.mem_append.mp he with he | he
        · rcases List.mem_append.mp he with he | he
          · exact (h1 e he).2.2.1
          · exact (h2 e he).2.2.1
        · exact (hpc e0 e he).2.2
      refine ⟨eventsBefore_of_no_p hnd, eventsBefore_of_no_q hnm, ?_⟩
      intro hne
      exact absurd (markEvents_nil_iff.mpr hnm) hne
    | ok updated =>
      rcases hd : deleteAll env blocks with ⟨tr3, r3⟩
      have h3 : ∀ e ∈ tr3, e.isAppend = false ∧ e.isMark = false ∧
          e.isListPages = false ∧ e.isListBlocks = false := by
        have hx := deleteAll_pure env blocks
        rw [hd] at hx
        exact hx
      cases r3 with
      | error e0 =>
        simp only [updateBlocksOfPage, hg, hr, hd]
        have hna : ∀ e ∈ tr1 ++ tr2 ++ tr3 ++ pageCatch e0,
            e.isAppend = false := by
          intro e he
          rcases List.mem_append.mp he with he | he
          · rcases List.mem_append.mp he with he | he
            · rcases List.mem_append.mp he with he | he
              · exact (h1 e he).2.1
              · exact (h2 e he).2.1
            · exact (h3 e he).1
          · exact (hpc e0 e he).2.1
        have hnm : ∀ e ∈ tr1 ++ tr2 ++ tr3 ++ pageCatch e0,
            e.isMark = false := by
          intro e he
          rcases List.mem_append.mp he with he | he
          · rcases List.mem_append.mp he with he | he
            · rcases List.mem_append.mp he with he | he
              · exact (h1 e he).2.2.1
              · exact (h2 e he).2.2.1
            · exact (h3 e he).2.1
          · exact (hpc e0 e he).2.2
        refine ⟨eventsBefore_of_no_q hna, eventsBefore_of_no_p hna, ?_⟩
        intro hne
        exact absurd (markEvents_nil_iff.mpr hnm) hne
      | ok u3 =>
        cases u3
        rcases ha : appendChunks env page.id (chunkList updated) with ⟨tr4, r4⟩
        have h4 : ∀ e ∈ tr4, e.isDelete = false ∧ e.isMark = false ∧
            e.isListPages = false ∧ e.isListBlocks = false := by
          have hx := appendChunks_pure env page.id (chunkList updated)
          rw [ha] at hx
          exact hx
        have hpre_na : ∀ e ∈ tr1 ++ tr2 ++ tr3, e.isAppend = false := by
          intro e he
          rcases List.mem_append.mp he with he | he
          · rcases List.mem_append.mp he with he | he
            · exact (h1 e he).2.1
            · exact (h2 e he).2.1
          · exact (h3 e he).1
        have hpre_nm : ∀ e ∈ tr1 ++ tr2 ++ tr3, e.isMark = false := by
          intro e he
          rcases List.mem_append.mp he with he | he
          · rcases List.mem_append.mp he with he | he
            · exact (h1 e he).2.2.1
            · exact (h2 e he).2.2.1
          · exact (h3 e he).2.1
        cases r4 with
        | error e0 =>
          simp only [updateBlocksOfPage, hg, hr, hd, ha]
          have hsp : tr1 ++ tr2 ++ tr3 ++ tr4 ++ pageCatch e0
              = (tr1 ++ tr2 ++ tr3) ++ (tr4 ++ pageCatch e0) := by
            simp [List.append_assoc]
          have hta : ∀ e ∈ tr4 ++ pageCatch e0, e.isDelete = false := by
            intro e he
            rcases List.mem_append.mp he with he | he
            · exact (h4 e he).1
            · exact (hpc e0 e he).1
          have hnm : ∀ e ∈ tr1 ++ tr2 ++ tr3 ++ tr4 ++ pageCatch e0,
              e.isMark = false := by
            rw [hsp]
            intro e he
            rcases List.mem_append.mp he with he | he
            · exact hpre_nm e he
            · rcases List.mem_append.mp he with he | he
              · exact (h4 e he).2.1
              · exact (hpc e0 e he).2.2
          refine ⟨?_, eventsBefore_of_no_q hnm, ?_⟩
          · rw [hsp]
            exact eventsBefore_append hpre_na hta
          · intro hne
            exact absurd (markEvents_nil_iff.mpr hnm) hne
        | ok u4 =>
          cases u4
          rcases hm : markPageAsUpdated env page.id with ⟨tr5, r5⟩
          have h5 : ∀ e ∈ tr5, e.isDelete = false ∧ e.isAppend = false ∧
              e.isAcquire = false ∧ limitedOp e = false := by
            have hx := mark_pure env page.id
            rw [hm] at hx
            exact hx
          have hexists : ∃ blocks2 updated2,
              ((tr1, Except.ok blocks) :
                List Event × Except Err (List Block)).2 = Except.ok blocks2 ∧
              (rewriteLoop env blocks2).2 = Except.ok updated2 ∧
              (deleteAll env blocks2).2 = Except.ok () ∧
              (appendChunks env page.id (chunkList updated2)).2
                = Except.ok () := by
            refine ⟨blocks, updated, rfl, ?_, ?_, ?_⟩
            · rw [hr]
            · rw [hd]
            · rw [ha]
          have hABcommon : ∀ (tail : List Event),
              (∀ e ∈ tail, e.isDelete = false) →
              (∀ e ∈ tail, e.isAppend = false) →
              eventsBefore Event.isDelete Event.isAppend
                (tr1 ++ tr2 ++ tr3 ++ tr4 ++ tail) ∧
              eventsBefore Event.isAppend Event.isMark
                (tr1 ++ tr2 ++ tr3 ++ tr4 ++ tail) := by
            intro tail htd hta
            have hsp : tr1 ++ tr2 ++ tr3 ++ tr4 ++ tail
                = (tr1 ++ tr2 ++ tr3) ++ (tr4 ++ tail) := by
              simp [List.append_assoc]
            have hsp2 : tr1 ++ tr2 ++ tr3 ++ tr4 ++ tail
                = (tr1 ++ tr2 ++ tr3 ++ tr4) ++ tail := by
              simp [List.append_assoc]
            constructor
            · rw [hsp]
              apply eventsBefore_append hpre_na
              intro e he
              rcases List.mem_append.mp he with he | he
              · exact (h4 e he).1
              · exact htd e he
            · rw [hsp2]
              apply eventsBefore_append
              · intro e he
                rcases List.mem_append.mp he with he | he
                · exact hpre_nm e he
                · exact (h4 e he).2.1
              · exact hta
          cases r5 with
          | error e0 =>
            simp only [updateBlocksOfPage, hg, hr, hd, ha, hm]
            have htail_d : ∀ e ∈ tr5 ++ pageCatch e0, e.isDelete = false := by
              intro e he
              rcases List.mem_append.mp he with he | he
              · exact (h5 e he).1
              · exact (hpc e0 e he).1
            have htail_a : ∀ e ∈ tr5 ++ pageCatch e0, e.isAppend = false := by
              intro e he
              rcases List.mem_append.mp he with he | he
              · exact (h5 e he).2.1
              · exact (hpc e0 e he).2.1
            have hsp3 : tr1 ++ tr2 ++ tr3 ++ tr4 ++ tr5 ++ pageCatch e0
                = tr1 ++ tr2 ++ tr3 ++ tr4 ++ (tr5 ++ pageCatch e0) := by
              simp [List.append_assoc]
            rcases hABcommon (tr5 ++ pageCatch e0) htail_d htail_a with
              ⟨hA, hB⟩
            rw [hsp3]
            exact ⟨hA, hB, fun _ => hexists⟩
          | ok u5 =>
            cases u5
            simp only [updateBlocksOfPage, hg, hr, hd, ha, hm]
            have htail_d : ∀ e ∈ tr5 ++ [Event.logInfo (finishMsg page)],
                e.isDelete = false := by
              intro e he
              rcases List.mem_append.mp he with he | he
              · exact (h5 e he).1
              · simp at he
                subst he
                simp [Event.isDelete]
            have htail_a : ∀ e ∈ tr5 ++ [Event.logInfo (finishMsg page)],
                e.isAppend = false := by
              intro e he
              rcases List.mem_append.mp he with he | he
              · exact (h5 e he).2.1
              · simp at he
                subst he
                simp [Event.isAppend]
            have hsp3 : tr1 ++ tr2 ++ tr3 ++ tr4 ++ tr5 ++
                  [Event.logInfo (finishMsg page)]
                = tr1 ++ tr2 ++ tr3 ++ tr4 ++
                  (tr5 ++ [Event.logInfo (finishMsg page)]) := by
              simp [List.append_assoc]
            rcases hABcommon (tr5 ++ [Event.logInfo (finishMsg page)])
              htail_d htail_a with ⟨hA, hB⟩
            rw [hsp3]
            exact ⟨hA, hB, fun _ => hexists⟩

/-- C3: a page sync that completes issues exactly one delete per
originally fetched block, appends exactly the rewritten list — chunked
in order, each chunk at most 100 blocks — so the appended total equals
the rewritten count. -/
theorem claim_C3 (env : Env) (page : Page) (blocks updated : List Block)
    (hdone : (updateBlocksOfPage env page).2 = PageOutcome.done)
    (hb : (getBlocksByPageId env page.id).2 = Except.ok blocks)
    (hu : (rewriteLoop env blocks).2 = Except.ok updated) :
    (deleteEvents (updateBlocksOfPage env page).1).length = blocks.length ∧
    (appendPayloads (updateBlocksOfPage env page).1).flatten = updated ∧
    ((appendPayloads (updateBlocksOfPage env page).1).map
      List.length).sum = updated.length ∧
    ∀ c ∈ appendPayloads (updateBlocksOfPage env page).1, c.length ≤ 100 := by
  rcases hg : getBlocksByPageId env page.id with ⟨tr1, r1⟩
  rw [hg] at hb
  simp only [] at hb
  subst hb
  have h1 : ∀ e ∈ tr1, e.isDelete = false ∧ e.isAppend = false ∧
      e.isMark = false ∧ e.isAcquire = false ∧ limitedOp e = false := by
    have hx := getBlocksGo_pure env page.id (env.blocksResponses page.id) none
    rw [show getBlocksGo env page.id (env.blocksResponses page.id) none
        = (tr1, Except.ok blocks) from hg] at hx
    exact hx
  rcases hr : rewriteLoop env blocks with ⟨tr2, r2⟩
  rw [hr] at hu
  simp only [] at hu
  subst hu
  have h2 : ∀ e ∈ tr2, innerEvent e := by
    have hx := rewriteLoop_pure env blocks
    rw [hr] at hx
    exact hx
  rcases hd : deleteAll env blocks with ⟨tr3, r3⟩
  cases r3 with
  | error e0 =>
    simp only [updateBlocksOfPage, hg, hr, hd] at hdone
    cases hdone
  | ok u3 =>
    cases u3
    have h3 : deleteEvents tr3 = blocks.map (fun b => b.id) := by
      have hx := deleteAll_deleteEvents env blocks
      rw [hd] at hx
      exact hx
    have h3b : ∀ e ∈ tr3, e.isAppend = false ∧ e.isMark = false ∧
        e.isListPages = false ∧ e.isListBlocks = false := by
      have hx := deleteAll_pure env blocks
      rw [hd] at hx
      exact hx
    rcases ha : appendChunks env page.id (chunkList updated) with ⟨tr4, r4⟩
    cases r4 with
    | error e0 =>
      simp only [updateBlocksOfPage, hg, hr, hd, ha] at hdone
      cases hdone
    | ok u4 =>
      cases u4
      have h4 : appendPayloads tr4 = chunkList updated := by
        have hx := appendChunks_ok_payloads env page.id (chunkList updated)
        rw [ha] at hx
        exact hx rfl
      have h4b : ∀ e ∈ tr4, e.isDelete = false ∧ e.isMark = false ∧
          e.isListPages = false ∧ e.isListBlocks = false := by
        have hx := appendChunks_pure env page.id (chunkList updated)
        rw [ha] at hx
        exact hx
      rcases hm : markPageAsUpdated env page.id with ⟨tr5, r5⟩
      cases r5 with
      | error e0 =>
        simp only [updateBlocksOfPage, hg, hr, hd, ha, hm] at hdone
        cases hdone
      | ok u5 =>
        cases u5
        have h5 : ∀ e ∈ tr5, e.isDelete = false ∧ e.isAppend = false ∧
            e.isAcquire = false ∧ limitedOp e = false := by
          have hx := mark_pure env page.id
          rw [hm] at hx
          exact hx
        simp only [updateBlocksOfPage, hg, hr, hd, ha, hm]
        have hde : deleteEvents (tr1 ++ tr2 ++ tr3 ++ tr4 ++ tr5 ++
            [Event.logInfo (finishMsg page)]) = blocks.map (fun b => b.id) := by
          rw [deleteEvents_append, deleteEvents_append, deleteEvents_append,
            deleteEvents_append, deleteEvents_append]
          rw [deleteEvents_nil_iff.mpr (fun e he => (h1 e he).1),
            deleteEvents_nil_iff.mpr (fun e he => (h2 e he).1),
            deleteEvents_nil_iff.mpr (fun e he => (h4b e he).1),
            deleteEvents_nil_iff.mpr (fun e he => (h5 e he).1), h3]
          simp [deleteEvents]
        have hap : appendPayloads (tr1 ++ tr2 ++ tr3 ++ tr4 ++ tr5 ++
            [Event.logInfo (finishMsg page)]) = chunkList updated := by
          rw [appendPayloads_append, appendPayloads_append,
            appendPayloads_append, appendPayloads_append, appendPayloads_append]
          rw [appendPayloads_nil_iff.mpr (fun e he => (h1 e he).2.1),
            appendPayloads_nil_iff.mpr (fun e he => (h2 e he).2.1),
            appendPayloads_nil_iff.mpr (fun e he => (h3b e he).1),
            appendPayloads_nil_iff.mpr (fun e he => (h5 e he).2.1), h4]
          simp [appendPayloads]
        refine ⟨?_, ?_, ?_, ?_⟩
        · rw [hde]
          simp
        · rw [hap, chunkList_flatten]
        · rw [hap]
          have := chunkList_flatten updated
          calc ((chunkList updated).map List.length).sum
              = (chunkList updated).flatten.length := by
                rw [List.length_flatten]
            _ = updated.length := by rw [this]
        · rw [hap]
          exact chunkList_le_100 updated

/-- C10: the rewrite works on shallow copies, so after the rewrite the
fetched blocks still carry their identifiers: whenever the delete phase
runs, it issues exactly one delete per fetched block (image blocks
included), in order, with the original identifier — even though the
stripped copy of every non-image block has its identifier removed. -/
theorem claim_C10 (env : Env) (page : Page) (blocks updated : List Block)
    (hb : (getBlocksByPageId env page.id).2 = Except.ok blocks)
    (hu : (rewriteLoop env blocks).2 = Except.ok updated) :
    deleteEvents (updateBlocksOfPage env page).1 =
      blocks.map (fun b => b.id) ∧
    updated.length = blocks.length ∧
    (∀ i (hbi : i < blocks.length) (hui : i < updated.length),
      (blocks.get ⟨i, hbi⟩).type ≠ "image" →
      (updated.get ⟨i, hui⟩).id = none ∧
      updated.get ⟨i, hui⟩ =
        removeUnnecessaryBlockInfo (shallowCopy (blocks.get ⟨i, hbi⟩))) := by
  rcases hg : getBlocksByPageId env page.id with ⟨tr1, r1⟩
  rw [hg] at hb
  simp only [] at hb
  subst hb
  have h1 : ∀ e ∈ tr1, e.isDelete = false ∧ e.isAppend = false ∧
      e.isMark = false ∧ e.isAcquire = false ∧ limitedOp e = false := by
    have hx := getBlocksGo_pure env page.id (env.blocksResponses page.id) none
    rw [show getBlocksGo env page.id (env.blocksResponses page.id) none
        = (tr1, Except.ok blocks) from hg] at hx
    exact hx
  rcases hr : rewriteLoop env blocks with ⟨tr2, r2⟩
  rw [hr] at hu
  simp only [] at hu
  subst hu
  have h2 : ∀ e ∈ tr2, innerEvent e := by
    have hx := rewriteLoop_pure env blocks
    rw [hr] at hx
    exact hx
  have hlen : updated.length = blocks.length := by
    apply rewriteLoop_ok_length env blocks updated
    rw [hr]
  have hget : ∀ i (hbi : i < blocks.length) (hui : i < updated.length),
      (blocks.get ⟨i, hbi⟩).type ≠ "image" →
      (updated.get ⟨i, hui⟩).id = none ∧
      updated.get ⟨i, hui⟩ =
        removeUnnecessaryBlockInfo (shallowCopy (blocks.get ⟨i, hbi⟩)) := by
    intro i hbi hui hni
    have := rewriteLoop_ok_get env blocks updated (by rw [hr]) i hbi hui hni
    refine ⟨?_, this⟩
    rw [this]
    rfl
  have hd1 : deleteEvents tr1 = [] :=
    deleteEvents_nil_iff.mpr (fun e he => (h1 e he).1)
  have hd2 : deleteEvents tr2 = [] :=
    deleteEvents_nil_iff.mpr (fun e he => (h2 e he).1)
  rcases hd : deleteAll env blocks with ⟨tr3, r3⟩
  have h3 : deleteEvents tr3 = blocks.map (fun b => b.id) := by
    have hx := deleteAll_deleteEvents env blocks
    rw [hd] at hx
    exact hx
  have hdpc : ∀ e0 : Err, deleteEvents (pageCatch e0) = [] := by
    intro e0
    simp [pageCatch, deleteEvents]
  cases r3 with
  | error e0 =>
    simp only [updateBlocksOfPage, hg, hr, hd]
    refine ⟨?_, hlen, hget⟩
    rw [deleteEvents_append, deleteEvents_append, deleteEvents_append,
      hd1, hd2, h3, hdpc]
    simp
  | ok u3 =>
    cases u3
    rcases ha : appendChunks env page.id (chunkList updated) with ⟨tr4, r4⟩
    have hd4 : deleteEvents tr4 = [] := by
      apply deleteEvents_nil_iff.mpr
      intro e he
      have hx := appendChunks_pure env page.id (chunkList updated)
      rw [ha] at hx
      exact (hx e he).1
    cases r4 with
    | error e0 =>
      simp only [updateBlocksOfPage, hg, hr, hd, ha]
      refine ⟨?_, hlen, hget⟩
      rw [deleteEvents_append, deleteEvents_append, deleteEvents_append,
        deleteEvents_append, hd1, hd2, h3, hd4, hdpc]
      simp
    | ok u4 =>
      cases u4
      rcases hm : markPageAsUpdated env page.id with ⟨tr5, r5⟩
      have hd5 : deleteEvents tr5 = [] := by
        apply deleteEvents_nil_iff.mpr
        intro e he
        have hx := mark_pure env page.id
        rw [hm] at hx
        exact (hx e he).1
      cases r5 with
      | error e0 =>
        simp only [updateBlocksOfPage, hg, hr, hd, ha, hm]
        refine ⟨?_, hlen, hget⟩
        rw [deleteEvents_append, deleteEvents_append, deleteEvents_append,
          deleteEvents_append, deleteEvents_append, hd1, hd2, h3, hd4, hd5,
          hdpc]
        simp
      | ok u5 =>
        cases u5
        simp only [updateBlocksOfPage, hg, hr, hd, ha, hm]
        refine ⟨?_, hlen, hget⟩
        rw [deleteEvents_append, deleteEvents_append, deleteEvents_append,
          deleteEvents_append, deleteEvents_append, hd1, hd2, h3, hd4, hd5]
        simp [deleteEvents]

/-- C9: for a non-image block, the rewrite emits exactly the input with
the eight volatile fields removed — every other field (including the
nested image payload and the opaque remainder) is untouched — and the
rewrite loop for that block performs no effect. -/
theorem claim_C9 (env : Env) (b : Block) (h : b.type ≠ "image") :
    removeUnnecessaryBlockInfo (shallowCopy b) =
      { object := b.object
        id := none
        parent := none
        created_time := none
        last_edited_time := none
        last_edited_by := none
        has_children := none
        archived := none
        created_by := none
        type := b.type
        image := b.image
        payload := b.payload } ∧
    rewriteLoop env [b] =
      ([], Except.ok [removeUnnecessaryBlockInfo (shallowCopy b)]) := by
  constructor
  · rfl
  · simp [rewriteLoop, h, Except.map]

/-- Witness for C9 at a fully populated paragraph block. -/
theorem claim_C9_witness :
    blockC9.type ≠ "image" ∧
    removeUnnecessaryBlockInfo (shallowCopy blockC9) =
      { object := some "block"
        id := none
        parent := none
        created_time := none
        last_edited_time := none
        last_edited_by := none
        has_children := none
        archived := none
        created_by := none
        type := "paragraph"
        image := none
        payload := some "rich text" } ∧
    rewriteLoop envUnit [blockC9] =
      ([], Except.ok [removeUnnecessaryBlockInfo (shallowCopy blockC9)]) := by
  have h : blockC9.type ≠ "image" := by decide
  have hc := claim_C9 envUnit blockC9 h
  exact ⟨h, by rw [hc.1]; rfl, hc.2⟩

/-- C4: when the source answers `has_more=true` N times and then
`false`, both paginated listings return exactly the concatenation of
all N+1 responses' results in order — nothing dropped, nothing
duplicated — issuing exactly N+1 requests, each capped at 100 items. -/
theorem claim_C4 (env : Env) (did pid : String)
    (initP : List (PagedResp Page)) (lastP : PagedResp Page)
    (initB : List (PagedResp Block)) (lastB : PagedResp Block)
    (hP : ∀ r ∈ initP, r.has_more = true) (hPl : lastP.has_more = false)
    (hB : ∀ r ∈ initB, r.has_more = true) (hBl : lastB.has_more = false)
    (henvP : env.pagesResponses = (initP ++ [lastP]).map Except.ok)
    (henvB : env.blocksResponses pid = (initB ++ [lastB]).map Except.ok) :
    (getPagesByDatabaseId env did).2 =
      Except.ok (((initP ++ [lastP]).map PagedResp.results).flatten) ∧
    ((getPagesByDatabaseId env did).1.countP (fun e => e.isListPages)) =
      initP.length + 1 ∧
    (∀ e ∈ (getPagesByDatabaseId env did).1, pageSize100 e) ∧
    (getBlocksByPageId env pid).2 =
      Except.ok (((initB ++ [lastB]).map PagedResp.results).flatten) ∧
    ((getBlocksByPageId env pid).1.countP (fun e => e.isListBlocks)) =
      initB.length + 1 ∧
    ∀ e ∈ (getBlocksByPageId env pid).1, pageSize100 e := by
  have hp := getPagesGo_ok env did initP lastP none hP hPl
  have hb := getBlocksGo_ok env pid initB lastB none hB hBl
  rw [← henvP] at hp
  rw [← henvB] at hb
  exact ⟨hp.1, hp.2.1, hp.2.2, hb.1, hb.2.1, hb.2.2⟩

/-- Witness for C4: with one `has_more=true` response and one final
response on each endpoint, both listings return the two result lists
concatenated and issue exactly two 100-sized requests. -/
theorem claim_C4_witness :
    (∀ r ∈ [pageRespA], r.has_more = true) ∧
    pageRespB.has_more = false ∧
    (getPagesByDatabaseId envPag "db").2 =
      Except.ok (pageRespA.results ++ pageRespB.results) ∧
    ((getPagesByDatabaseId envPag "db").1.countP
      (fun e => e.isListPages)) = 2 ∧
    (getBlocksByPageId envPag "p1").2 =
      Except.ok (blockRespA.results ++ blockRespB.results) := by
  have hc := claim_C4 envPag "db" "p1" [pageRespA] pageRespB
    [blockRespA] blockRespB
    (by intro r hr; simp at hr; subst hr; rfl) rfl
    (by intro r hr; simp at hr; subst hr; rfl) rfl
    rfl rfl
  refine ⟨by intro r hr; simp at hr; subst hr; rfl, rfl, ?_, ?_, ?_⟩
  · rw [hc.1]
    simp
  · exact hc.2.1
  · rw [hc.2.2.2.1]
    simp

/-- One failing attempt: the loop logs the attempt number (and the
error) and retries with the remaining budget. -/
theorem handleImageGo_fail_step (env : Env) (ip : ImagePayload)
    (url : String) (retryCount fuel : Nat) (t0 : List Event) (e0 : Err)
    (hurl : firstUrl ip = some url)
    (h0 : attemptImage env url retryCount = (t0, Except.error e0)) :
    handleImageGo env (some ip) retryCount (fuel + 1) =
      (t0 ++ Event.logImgFail (retryCount + 1) :: Event.logError e0 ::
        (handleImageGo env (some ip) (retryCount + 1) fuel).1,
       (handleImageGo env (some ip) (retryCount + 1) fuel).2) := by
  conv_lhs => rw [handleImageGo]
  simp only [hurl, h0]

/-- One successful attempt: the loop returns the asset immediately. -/
theorem handleImageGo_ok_step (env : Env) (ip : ImagePayload)
    (url : String) (retryCount fuel : Nat) (t0 : List Event)
    (fn : String) (info : ImageInfo)
    (hurl : firstUrl ip = some url)
    (h0 : attemptImage env url retryCount = (t0, Except.ok (fn, info))) :
    handleImageGo env (some ip) retryCount (fuel + 1) =
      (t0, HandleRet.asset fn info) := by
  conv_lhs => rw [handleImageGo]
  simp only [hurl, h0]

/-- C5: under the retry budget of 3, an image whose processing attempt
fails twice and succeeds the third time yields the uploaded asset with
exactly the two failed attempts logged (numbered 1 and 2); an image
whose attempts all fail yields the exhausted outcome (the empty object)
after exactly 3 attempts, logged 1, 2, 3. -/
theorem claim_C5 (env : Env) (ip : ImagePayload) (url : String)
    (hurl : firstUrl ip = some url) :
    (∀ t0 t1 t2 e0 e1 fn info,
      attemptImage env url 0 = (t0, Except.error e0) →
      attemptImage env url 1 = (t1, Except.error e1) →
      attemptImage env url 2 = (t2, Except.ok (fn, info)) →
      (handleImageBlock env (some ip)).2 = HandleRet.asset fn info ∧
      failLogNums (handleImageBlock env (some ip)).1 = [1, 2]) ∧
    (∀ t0 t1 t2 e0 e1 e2,
      attemptImage env url 0 = (t0, Except.error e0) →
      attemptImage env url 1 = (t1, Except.error e1) →
      attemptImage env url 2 = (t2, Except.error e2) →
      (handleImageBlock env (some ip)).2 = HandleRet.exhausted ∧
      failLogNums (handleImageBlock env (some ip)).1 = [1, 2, 3]) := by
  constructor
  · intro t0 t1 t2 e0 e1 fn info h0 h1 h2
    have s1 : handleImageGo env (some ip) 0 3
        = (t0 ++ Event.logImgFail 1 :: Event.logError e0 ::
            (handleImageGo env (some ip) 1 2).1,
           (handleImageGo env (some ip) 1 2).2) :=
      handleImageGo_fail_step env ip url 0 2 t0 e0 hurl h0
    have s2 : handleImageGo env (some ip) 1 2
        = (t1 ++ Event.logImgFail 2 :: Event.logError e1 ::
            (handleImageGo env (some ip) 2 1).1,
           (handleImageGo env (some ip) 2 1).2) :=
      handleImageGo_fail_step env ip url 1 1 t1 e1 hurl h1
    have s3 : handleImageGo env (some ip) 2 1 = (t2, HandleRet.asset fn info) :=
      handleImageGo_ok_step env ip url 2 0 t2 fn info hurl h2
    have hval : handleImageBlock env (some ip)
        = (t0 ++ Event.logImgFail 1 :: Event.logError e0 ::
            (t1 ++ Event.logImgFail 2 :: Event.logError e1 :: t2),
           HandleRet.asset fn info) := by
      show handleImageGo env (some ip) 0 RETRY_TIMES = _
      rw [show RETRY_TIMES = 3 from rfl, s1, s2, s3]
    have n0 : failLogNums t0 = [] := by
      have hx := attemptImage_noFailLog env url 0
      rw [h0] at hx
      exact hx
    have n1 : failLogNums t1 = [] := by
      have hx := attemptImage_noFailLog env url 1
      rw [h1] at hx
      exact hx
    have n2 : failLogNums t2 = [] := by
      have hx := attemptImage_noFailLog env url 2
      rw [h2] at hx
      exact hx
    rw [hval]
    constructor
    · rfl
    · show failLogNums (t0 ++ Event.logImgFail 1 :: Event.logError e0 ::
        (t1 ++ Event.logImgFail 2 :: Event.logError e1 :: t2)) = [1, 2]
      rw [failLogNums_append]
      rw [n0]
      simp only [List.nil_append]
      show (1 : Nat) :: failLogNums (t1 ++ Event.logImgFail 2 ::
        Event.logError e1 :: t2) = [1, 2]
      rw [failLogNums_append, n1]
      simp only [List.nil_append]
      show (1 : Nat) :: 2 :: failLogNums t2 = [1, 2]
      rw [n2]
  · intro t0 t1 t2 e0 e1 e2 h0 h1 h2
    have s1 : handleImageGo env (some ip) 0 3
        = (t0 ++ Event.logImgFail 1 :: Event.logError e0 ::
            (handleImageGo env (some ip) 1 2).1,
           (handleImageGo env (some ip) 1 2).2) :=
      handleImageGo_fail_step env ip url 0 2 t0 e0 hurl h0
    have s2 : handleImageGo env (some ip) 1 2
        = (t1 ++ Event.logImgFail 2 :: Event.logError e1 ::
            (handleImageGo env (some ip) 2 1).1,
           (handleImageGo env (some ip) 2 1).2) :=
      handleImageGo_fail_step env ip url 1 1 t1 e1 hurl h1
    have s3 : handleImageGo env (some ip) 2 1
        = (t2 ++ Event.logImgFail 3 :: Event.logError e2 ::
            (handleImageGo env (some ip) 3 0).1,
           (handleImageGo env (some ip) 3 0).2) :=
      handleImageGo_fail_step env ip url 2 0 t2 e2 hurl h2
    have s4 : handleImageGo env (some ip) 3 0 = ([], HandleRet.exhausted) := rfl
    have hval : handleImageBlock env (some ip)
        = (t0 ++ Event.logImgFail 1 :: Event.logError e0 ::
            (t1 ++ Event.logImgFail 2 :: Event.logError e1 ::
              (t2 ++ Event.logImgFail 3 :: Event.logError e2 :: [])),
           HandleRet.exhausted) := by
      show handleImageGo env (some ip) 0 RETRY_TIMES = _
      rw [show RETRY_TIMES = 3 from rfl, s1, s2, s3, s4]
    have n0 : failLogNums t0 = [] := by
      have hx := attemptImage_noFailLog env url 0
      rw [h0] at hx
      exact hx
    have n1 : failLogNums t1 = [] := by
      have hx := attemptImage_noFailLog env url 1
      rw [h1] at hx
      exact hx
    have n2 : failLogNums t2 = [] := by
      have hx := attemptImage_noFailLog env url 2
      rw [h2] at hx
      exact hx
    rw [hval]
    constructor
    · rfl
    · show failLogNums (t0 ++ Event.logImgFail 1 :: Event.logError e0 ::
        (t1 ++ Event.logImgFail 2 :: Event.logError e1 ::
          (t2 ++ Event.logImgFail 3 :: Event.logError e2 :: []))) = [1, 2, 3]
      rw [failLogNums_append, n0]
      simp only [List.nil_append]
      show (1 : Nat) :: failLogNums (t1 ++ Event.logImgFail 2 ::
        Event.logError e1 :: (t2 ++ Event.logImgFail 3 ::
          Event.logError e2 :: [])) = [1, 2, 3]
      rw [failLogNums_append, n1]
      simp only [List.nil_append]
      show (1 : Nat) :: 2 :: failLogNums (t2 ++ Event.logImgFail 3 ::
        Event.logError e2 :: []) = [1, 2, 3]
      rw [failLogNums_append, n2]
      simp only [List.nil_append]
      rfl

/-- Witness for C5: the fail-fail-succeed environment returns the
uploaded asset with failures 1 and 2 logged; the always-fail
environment exhausts the budget with failures 1, 2, 3 logged. -/
theorem claim_C5_witness :
    ((handleImageBlock envImgA (some ipC5)).2
      = HandleRet.asset "abc.png" { type := "png", width := 3, height := 4 } ∧
     failLogNums (handleImageBlock envImgA (some ipC5)).1 = [1, 2]) ∧
    ((handleImageBlock envImgB (some ipC5)).2 = HandleRet.exhausted ∧
     failLogNums (handleImageBlock envImgB (some ipC5)).1 = [1, 2, 3]) := by
  constructor
  · exact (claim_C5 envImgA ipC5 "u" rfl).1
      [Event.callDownload "u"] [Event.callDownload "u"]
      [Event.callDownload "u", Event.callUpload "abc.png"]
      "netfail" "netfail" "abc.png" { type := "png", width := 3, height := 4 }
      rfl rfl rfl
  · exact (claim_C5 envImgB ipC5 "u" rfl).2
      [Event.callDownload "u"] [Event.callDownload "u"] [Event.callDownload "u"]
      "netfail" "netfail" "netfail" rfl rfl rfl

/-- C1: the run driver gives every fetched page an outcome computed
from that page's own interaction alone — a failure inside one page's
sync is caught at the page boundary and logged there, it never reaches
a sibling page or the run; and a page-listing failure is caught by the
run-level handler, which logs and completes with an empty outcome
list instead of raising. -/
theorem claim_C1 (env : Env) :
    (∀ pages, (getPagesByDatabaseId env env.dbId).2 = Except.ok pages →
      (updateAllPages env).2 =
        pages.map (fun p => (p.id, (updateBlocksOfPage env p).2))) ∧
    (∀ page e, (updateBlocksOfPage env page).2 = PageOutcome.failed e →
      Event.logError "Failed at updateBlocksByPage"
        ∈ (updateBlocksOfPage env page).1) ∧
    (∀ e, (getPagesByDatabaseId env env.dbId).2 = Except.error e →
      (updateAllPages env).2 = [] ∧
      Event.logError "Failed at handleCron" ∈ (updateAllPages env).1) := by
  have hmempc : ∀ (t : List Event) (e0 : Err),
      Event.logError "Failed at updateBlocksByPage" ∈ t ++ pageCatch e0 := by
    intro t e0
    exact List.mem_append_right t (by simp [pageCatch])
  refine ⟨?_, ?_, ?_⟩
  · intro pages hok
    rcases hg : getPagesByDatabaseId env env.dbId with ⟨tr, r⟩
    rw [hg] at hok
    simp only [] at hok
    subst hok
    simp only [updateAllPages, hg]
    simp [runPage]
  · intro page e hf
    rcases hg : getBlocksByPageId env page.id with ⟨tr1, r1⟩
    cases r1 with
    | error e0 =>
      simp only [updateBlocksOfPage, hg]
      exact hmempc tr1 e0
    | ok blocks =>
      rcases hr : rewriteLoop env blocks with ⟨tr2, r2⟩
      cases r2 with
      | error e0 =>
        simp only [updateBlocksOfPage, hg, hr]
        exact hmempc (tr1 ++ tr2) e0
      | ok updated =>
        rcases hd : deleteAll env blocks with ⟨tr3, r3⟩
        cases r3 with
        | error e0 =>
          simp only [updateBlocksOfPage, hg, hr, hd]
          exact hmempc (tr1 ++ tr2 ++ tr3) e0
        | ok u3 =>
          cases u3
          rcases ha : appendChunks env page.id (chunkList updated) with ⟨tr4, r4⟩
          cases r4 with
          | error e0 =>
            simp only [updateBlocksOfPage, hg, hr, hd, ha]
            exact hmempc (tr1 ++ tr2 ++ tr3 ++ tr4) e0
          | ok u4 =>
            cases u4
            rcases hm : markPageAsUpdated env page.id with ⟨tr5, r5⟩
            cases r5 with
            | error e0 =>
              simp only [updateBlocksOfPage, hg, hr, hd, ha, hm]
              exact hmempc (tr1 ++ tr2 ++ tr3 ++ tr4 ++ tr5) e0
            | ok u5 =>
              cases u5
              simp only [updateBlocksOfPage, hg, hr, hd, ha, hm] at hf
              cases hf
  · intro e herr
    rcases hg : getPagesByDatabaseId env env.dbId with ⟨tr, r⟩
    rw [hg] at herr
    simp only [] at herr
    subst herr
    constructor
    · simp [updateAllPages, hg]
    · simp only [updateAllPages, hg]
      exact List.mem_append_right tr (by simp)

/-- Witness for C1: with page 2's block listing failing, pages 1 and 3
still complete (`done`), page 2 is `failed` and logged, and the run
returns all three outcomes. -/
theorem claim_C1_witness :
    (updateAllPages env3).2 =
      [pageP1, pageP2, pageP3].map
        (fun p => (p.id, (updateBlocksOfPage env3 p).2)) ∧
    (updateAllPages env3).2 =
      [("p1", PageOutcome.done), ("p2", PageOutcome.failed "boom"),
        ("p3", PageOutcome.done)] ∧
    Event.logError "Failed at updateBlocksByPage"
      ∈ (updateBlocksOfPage env3 pageP2).1 := by
  refine ⟨(claim_C1 env3).1 [pageP1, pageP2, pageP3] rfl, by decide, ?_⟩
  exact (claim_C1 env3).2.1 pageP2 "boom" (by decide)

/-- C6 (evaluation at the failing input): a page holding an image block
with neither URL does NOT drop the block and continue — destructuring
the `undefined` returned by `handleImageBlock` throws, so the page sync
aborts as `Failed` with no delete, no append and no mark issued. -/
theorem claim_C6_bug :
    (updateBlocksOfPage envC6 pageC6).2 =
      PageOutcome.failed "TypeError: Cannot destructure property of undefined" ∧
    deleteEvents (updateBlocksOfPage envC6 pageC6).1 = [] ∧
    appendPayloads (updateBlocksOfPage envC6 pageC6).1 = [] ∧
    markEvents (updateBlocksOfPage envC6 pageC6).1 = [] := by
  refine ⟨by decide, by decide, by decide, by decide⟩

/-- A token acquisition in front of a covered trace keeps it covered. -/
theorem tokenCovered_cons_acquire {ops : Event → Bool}
    (hacq : ops Event.acquire = false) {t : List Event}
    (h : tokenCovered ops t) : tokenCovered ops (Event.acquire :: t) := by
  intro n
  cases n with
  | zero => simp
  | succ n =>
    rw [List.take_succ_cons]
    have h1 : List.countP ops (Event.acquire :: List.take n t)
        = List.countP ops (List.take n t) := by
      rw [List.countP_cons]
      simp [hacq]
    have h2 : List.countP (fun e => e.isAcquire)
          (Event.acquire :: List.take n t)
        = List.countP (fun e => e.isAcquire) (List.take n t) + 1 := by
      rw [List.countP_cons]
      simp [Event.isAcquire]
    rw [h1, h2]
    have := h n
    omega

/-- One page's whole sync trace is covered for the rate-limited
operations (page query, deletes, append chunks). -/
theorem updateBlocksOfPage_cov (env : Env) (page : Page) :
    tokenCovered limitedOp (updateBlocksOfPage env page).1 := by
  have hpc : ∀ e0 : Err, tokenCovered limitedOp (pageCatch e0) := by
    intro e0
    exact tokenCovered_of_inner (pageCatch_pure e0)
  have hlog : tokenCovered limitedOp [Event.logInfo (finishMsg page)] := by
    apply tokenCovered_of_none
    simp [limitedOp, Event.isListPages, Event.isAppend, Event.isDelete]
  rcases hg : getBlocksByPageId env page.id with ⟨tr1, r1⟩
  have c1 : tokenCovered limitedOp tr1 := by
    have hx := getBlocksGo_cov env page.id (env.blocksResponses page.id) none
    rw [show getBlocksGo env page.id (env.blocksResponses page.id) none
        = (tr1, r1) from hg] at hx
    exact hx
  cases r1 with
  | error e0 =>
    simp only [updateBlocksOfPage, hg]
    exact tokenCovered_append c1 (hpc e0)
  | ok blocks =>
    rcases hr : rewriteLoop env blocks with ⟨tr2, r2⟩
    have c2 : tokenCovered limitedOp tr2 := by
      have hx := tokenCovered_of_inner (rewriteLoop_pure env blocks)
      rw [hr] at hx
      exact hx
    cases r2 with
    | error e0 =>
      simp only [updateBlocksOfPage, hg, hr]
      exact tokenCovered_append (tokenCovered_append c1 c2) (hpc e0)
    | ok updated =>
      rcases hd : deleteAll env blocks with ⟨tr3, r3⟩
      have c3 : tokenCovered limitedOp tr3 := by
        have hx := deleteAll_cov env blocks
        rw [hd] at hx
        exact hx
      cases r3 with
      | error e0 =>
        simp only [updateBlocksOfPage, hg, hr, hd]
        exact tokenCovered_append
          (tokenCovered_append (tokenCovered_append c1 c2) c3) (hpc e0)
      | ok u3 =>
        cases u3
        rcases ha : appendChunks env page.id (chunkList updated) with ⟨tr4, r4⟩
        have c4 : tokenCovered limitedOp tr4 := by
          have hx := appendChunks_cov env page.id (chunkList updated)
          rw [ha] at hx
          exact hx
        cases r4 with
        | error e0 =>
          simp only [updateBlocksOfPage, hg, hr, hd, ha]
          exact tokenCovered_append (tokenCovered_append
            (tokenCovered_append (tokenCovered_append c1 c2) c3) c4) (hpc e0)
        | ok u4 =>
          cases u4
          rcases hm : markPageAsUpdated env page.id with ⟨tr5, r5⟩
          have c5 : tokenCovered limitedOp tr5 := by
            have hx := mark_cov env page.id
            rw [hm] at hx
            exact hx
          cases r5 with
          | error e0 =>
            simp only [updateBlocksOfPage, hg, hr, hd, ha, hm]
            exact tokenCovered_append (tokenCovered_append (tokenCovered_append
              (tokenCovered_append (tokenCovered_append c1 c2) c3) c4) c5)
              (hpc e0)
          | ok u5 =>
            cases u5
            simp only [updateBlocksOfPage, hg, hr, hd, ha, hm]
            exact tokenCovered_append (tokenCovered_append (tokenCovered_append
              (tokenCovered_append (tokenCovered_append c1 c2) c3) c4) c5)
              hlog

/-- C7 as stated is false: in a run over one empty page, the block
listing and the mark call reach the transport without any token of
their own — after five events the run has issued three content-API
calls but acquired only two tokens, so `tokenCovered transportOp` fails
on this run's trace at prefix length 5. -/
theorem claim_C7_counterexample :
    (((updateAllPages envC7).1.take 5).countP
      (fun e => e.isAcquire)) <
    (((updateAllPages envC7).1.take 5).countP transportOp) := by
  decide

/-- C7 amended: prefix-wise, the run acquires at least one token per
rate-limited operation — page-listing requests, deletes and append
chunks; the block-listing and mark calls are outside this guarantee
because the source never rate-limits them. -/
theorem claim_C7_amended (env : Env) :
    tokenCovered limitedOp (updateAllPages env).1 := by
  rcases hg : getPagesByDatabaseId env env.dbId with ⟨tr, r⟩
  have c0 : tokenCovered limitedOp tr := by
    have hx := getPagesGo_cov env env.dbId env.pagesResponses none
    rw [show getPagesGo env env.dbId env.pagesResponses none
        = (tr, r) from hg] at hx
    exact hx
  have hlogs : ∀ l : List Event, (∀ e ∈ l, e.isDelete = false ∧
      e.isAppend = false ∧ e.isListPages = false) →
      tokenCovered limitedOp l := by
    intro l hl
    apply tokenCovered_of_none
    rw [List.countP_eq_zero]
    intro e he
    rcases hl e he with ⟨h1, h2, h3⟩
    simp [limitedOp, h1, h2, h3]
  cases r with
  | error e0 =>
    simp only [updateAllPages, hg]
    apply tokenCovered_append c0
    apply hlogs
    intro e he
    simp at he
    rcases he with he | he <;> subst he <;>
      simp [Event.isDelete, Event.isAppend, Event.isListPages]
  | ok pages =>
    simp only [updateAllPages, hg]
    apply tokenCovered_append
    apply tokenCovered_append c0
    · clear hg c0
      induction pages with
      | nil => exact tokenCovered_of_none (by simp)
      | cons p ps ih =>
        simp only [List.map_cons, List.flatten_cons]
        apply tokenCovered_append
        · show tokenCovered limitedOp (runPage env p).1
          have : (runPage env p).1
              = Event.acquire :: (updateBlocksOfPage env p).1 := rfl
          rw [this]
          exact tokenCovered_cons_acquire
            (by simp [limitedOp, Event.isListPages, Event.isAppend,
              Event.isDelete]) (updateBlocksOfPage_cov env p)
        · exact ih
    · apply hlogs
      intro e he
      simp at he
      subst he
      simp [Event.isDelete, Event.isAppend, Event.isListPages]

/-- C8 as stated is false: a missing-block delete error is rethrown
like any other error, so the page's sync does not proceed to append and
mark — it ends `Failed` with neither issued. -/
theorem claim_C8_counterexample :
    (updateBlocksOfPage envC8 pageC8).2 =
      PageOutcome.failed "Could not find block with ID: b-1" ∧
    appendPayloads (updateBlocksOfPage envC8 pageC8).1 = [] ∧
    markEvents (updateBlocksOfPage envC8 pageC8).1 = [] := by
  refine ⟨by decide, by decide, by decide⟩

/-- C8 amended: `deleteBlockById` treats every delete error — including
a missing-block response — as fatal: it rethrows, the enclosing page
moves to `Failed`, and neither an append nor the mark call is issued
for that page. -/
theorem claim_C8_amended (env : Env) (page : Page)
    (blocks updated : List Block) (b : Block) (e : Err)
    (hb : (getBlocksByPageId env page.id).2 = Except.ok blocks)
    (hu : (rewriteLoop env blocks).2 = Except.ok updated)
    (hmem : b ∈ blocks)
    (hdel : env.deleteResult b.id = Except.error e) :
    (∃ e2, (updateBlocksOfPage env page).2 = PageOutcome.failed e2) ∧
    appendPayloads (updateBlocksOfPage env page).1 = [] ∧
    markEvents (updateBlocksOfPage env page).1 = [] := by
  rcases hg : getBlocksByPageId env page.id with ⟨tr1, r1⟩
  rw [hg] at hb
  simp only [] at hb
  subst hb
  have h1 : ∀ e2 ∈ tr1, e2.isDelete = false ∧ e2.isAppend = false ∧
      e2.isMark = false ∧ e2.isAcquire = false ∧ limitedOp e2 = false := by
    have hx := getBlocksGo_pure env page.id (env.blocksResponses page.id) none
    rw [show getBlocksGo env page.id (env.blocksResponses page.id) none
        = (tr1, Except.ok blocks) from hg] at hx
    exact hx
  rcases hr : rewriteLoop env blocks with ⟨tr2, r2⟩
  rw [hr] at hu
  simp only [] at hu
  subst hu
  have h2 : ∀ e2 ∈ tr2, innerEvent e2 := by
    have hx := rewriteLoop_pure env blocks
    rw [hr] at hx
    exact hx
  rcases deleteAll_error_of_mem env hmem hdel with ⟨e2, he2⟩
  rcases hd : deleteAll env blocks with ⟨tr3, r3⟩
  rw [hd] at he2
  simp only [] at he2
  subst he2
  have h3 : ∀ e2 ∈ tr3, e2.isAppend = false ∧ e2.isMark = false ∧
      e2.isListPages = false ∧ e2.isListBlocks = false := by
    have hx := deleteAll_pure env blocks
    rw [hd] at hx
    exact hx
  simp only [updateBlocksOfPage, hg, hr, hd]
  refine ⟨⟨e2, rfl⟩, ?_, ?_⟩
  · rw [appendPayloads_append, appendPayloads_append, appendPayloads_append]
    rw [appendPayloads_nil_iff.mpr (fun x hx => (h1 x hx).2.1),
      appendPayloads_nil_iff.mpr (fun x hx => (h2 x hx).2.1),
      appendPayloads_nil_iff.mpr (fun x hx => (h3 x hx).1)]
    simp [pageCatch, appendPayloads]
  · rw [markEvents_append, markEvents_append, markEvents_append]
    rw [markEvents_nil_iff.mpr (fun x hx => (h1 x hx).2.2.1),
      markEvents_nil_iff.mpr (fun x hx => (h2 x hx).2.2.1),
      markEvents_nil_iff.mpr (fun x hx => (h3 x hx).2.1)]
    simp [pageCatch, markEvents]

/-- Witness for the amended C8 at the concrete missing-block
environment. -/
theorem claim_C8_amended_witness :
    (∃ e2, (updateBlocksOfPage envC8 pageC8).2 = PageOutcome.failed e2) ∧
    appendPayloads (updateBlocksOfPage envC8 pageC8).1 = [] ∧
    markEvents (updateBlocksOfPage envC8 pageC8).1 = [] :=
  claim_C8_amended envC8 pageC8 [blockC9]
    [removeUnnecessaryBlockInfo (shallowCopy blockC9)] blockC9
    "Could not find block with ID: b-1" rfl rfl
    (List.mem_cons_self blockC9 []) rfl

/-- Witness for C2: the happy-path sync issues a mark, and the theorem
then yields that block fetch, rewrite, all deletes and all appends
succeeded. -/
theorem claim_C2_witness :
    markEvents (updateBlocksOfPage envHappy pageHappy).1 ≠ [] ∧
    ∃ blocks updated,
      (getBlocksByPageId envHappy pageHappy.id).2 = Except.ok blocks ∧
      (rewriteLoop envHappy blocks).2 = Except.ok updated ∧
      (deleteAll envHappy blocks).2 = Except.ok () ∧
      (appendChunks envHappy pageHappy.id (chunkList updated)).2 =
        Except.ok () :=
  ⟨by decide, (claim_C2 envHappy pageHappy).2.2 (by decide)⟩

/-- Witness for C3 at the happy-path scenario: two fetched blocks, two
deletes, one append chunk carrying both rewritten blocks. -/
theorem claim_C3_witness :
    (updateBlocksOfPage envHappy pageHappy).2 = PageOutcome.done ∧
    (deleteEvents (updateBlocksOfPage envHappy pageHappy).1).length =
      ([blockC9, blockB2] : List Block).length ∧
    (appendPayloads (updateBlocksOfPage envHappy pageHappy).1).flatten =
      updatedHappy ∧
    ((appendPayloads (updateBlocksOfPage envHappy pageHappy).1).map
      List.length).sum = updatedHappy.length ∧
    ∀ c ∈ appendPayloads (updateBlocksOfPage envHappy pageHappy).1,
      c.length ≤ 100 := by
  have hc := claim_C3 envHappy pageHappy [blockC9, blockB2] updatedHappy
    (by decide) rfl rfl
  exact ⟨by decide, hc.1, hc.2.1, hc.2.2.1, hc.2.2.2⟩

/-- Witness for C10 at the happy-path scenario: the deletes carry the
original identifiers `b-1`, `b-2` even though the rewritten copies have
their identifiers stripped. -/
theorem claim_C10_witness :
    deleteEvents (updateBlocksOfPage envHappy pageHappy).1 =
      ([blockC9, blockB2] : List Block).map (fun b => b.id) ∧
    updatedHappy.length = ([blockC9, blockB2] : List Block).length ∧
    deleteEvents (updateBlocksOfPage envHappy pageHappy).1 =
      [some "b-1", some "b-2"] ∧
    (∀ i (hbi : i < ([blockC9, blockB2] : List Block).length)
        (hui : i < updatedHappy.length),
      (([blockC9, blockB2] : List Block).get ⟨i, hbi⟩).type ≠ "image" →
      (updatedHappy.get ⟨i, hui⟩).id = none ∧
      updatedHappy.get ⟨i, hui⟩ =
        removeUnnecessaryBlockInfo
          (shallowCopy (([blockC9, blockB2] : List Block).get ⟨i, hbi⟩))) := by
  have hc := claim_C10 envHappy pageHappy [blockC9, blockB2] updatedHappy
    rfl rfl
  exact ⟨hc.1, hc.2.1, by decide, hc.2.2⟩
